import Mathlib

/-!
Verification of the extraction core of `newspaperV3/extractors.py`.

The Python source is shallowly embedded: strings are `List Char`, machine
integers are `Nat`/`Int`, Python `float` score arithmetic is modelled with
exact rationals (`ℚ`) where the source's values are provably exact at the
integer inputs that occur, datetimes are naive instants measured in seconds
(`Int`), and fallible operations return `Option`.  External collaborators
that are not part of this repository's single source file (the `lxml`
parser wrapper, the `dateparser` library, the stopword tables and the
`urls` helper module) are abstracted as explicit parameters or data fields,
exactly at the interface the source calls them.
-/

namespace Newspaper

/-! ## Basic Python string primitives -/

/-- Python `str` modelled as a list of characters. -/
abbrev Str := List Char

/-- ASCII lower-casing of one character; models Python `str.lower` on the
character repertoire used by the keyword tables (whose only cased
characters are ASCII letters). -/
def lowerChar (c : Char) : Char := c.toLower

/-- Python `text.lower()` (ASCII repertoire). -/
def pyLower (s : Str) : Str := s.map lowerChar

/-- ASCII whitespace, as stripped by Python `str.strip()` on the inputs of
interest. -/
def isSpaceChar (c : Char) : Bool :=
  c = ' ' || c = '\t' || c = '\n' || c = '\r' || c.val = 11 || c.val = 12

/-- Python `str.strip()` (drop leading and trailing whitespace). -/
def pyStrip (s : Str) : Str :=
  ((s.dropWhile isSpaceChar).reverse.dropWhile isSpaceChar).reverse

/-- Python `str.strip('/')`. -/
def stripSlash (s : Str) : Str :=
  ((s.dropWhile (fun c => c = '/')).reverse.dropWhile (fun c => c = '/')).reverse

/-- Python `needle in hay` on strings. -/
def strIn (needle : Str) : Str → Bool
  | [] => needle.isEmpty
  | c :: t => needle.isPrefixOf (c :: t) || strIn needle t

/-! ## C1 (component): `normalize_arabic`, lines 59-67 of the source -/

/-- `re.sub(r'[إأآا]', 'ا', ...)`, per character. -/
def subAlef (c : Char) : Char :=
  if c = 'إ' ∨ c = 'أ' ∨ c = 'آ' ∨ c = 'ا' then 'ا' else c

/-- `re.sub(r'[ى]', 'ي', ...)`, per character. -/
def subYa (c : Char) : Char := if c = 'ى' then 'ي' else c

/-- `re.sub(r'[ة]', 'ه', ...)`, per character. -/
def subTa (c : Char) : Char := if c = 'ة' then 'ه' else c

/-- Membership in the Arabic diacritic block `U+064B..U+0652`. -/
def isDiacritic (c : Char) : Bool := 0x64B ≤ c.val && c.val ≤ 0x652

/-- The composite per-character folding of the three substitutions. -/
def normChar (c : Char) : Char := subTa (subYa (subAlef c))

/-- The three letter-folding passes followed by the diacritic strip. -/
def normCore (s : Str) : Str :=
  (((s.map subAlef).map subYa).map subTa).filter (fun c => !isDiacritic c)

/-- `normalize_arabic(text)`: early return on falsy input, then the four
`re.sub` passes of the source. -/
def normalize_arabic (text : Str) : Str :=
  if text.isEmpty then text else normCore text

theorem normCore_cons (c : Char) (t : Str) :
    normCore (c :: t) =
      if isDiacritic (normChar c) = true then normCore t
      else normChar c :: normCore t := by
  unfold normCore normChar
  simp only [List.map_cons, List.filter_cons]
  by_cases h : isDiacritic (subTa (subYa (subAlef c))) = true
  · simp [h]
  · simp only [Bool.not_eq_true] at h
    simp [h]

theorem normCore_eq_filterMap (s : Str) :
    normCore s = s.filterMap
      (fun c => if isDiacritic (normChar c) then none else some (normChar c)) := by
  induction s with
  | nil => rfl
  | cons c t ih =>
    rw [normCore_cons, List.filterMap_cons]
    by_cases h : isDiacritic (normChar c) = true
    · simp [h, ih]
    · simp only [Bool.not_eq_true] at h
      simp [h, ih]

theorem normChar_idem (c : Char) : normChar (normChar c) = normChar c := by
  by_cases h1 : c = 'إ' ∨ c = 'أ' ∨ c = 'آ' ∨ c = 'ا'
  · rcases h1 with h | h | h | h <;> subst h <;> decide
  · push_neg at h1
    obtain ⟨n1, n2, n3, n4⟩ := h1
    by_cases h2 : c = 'ى'
    · subst h2; decide
    · by_cases h3 : c = 'ة'
      · subst h3; decide
      · have hfix : normChar c = c := by
          unfold normChar subAlef subYa subTa
          simp [n1, n2, n3, n4, h2, h3]
        rw [hfix, hfix]

theorem normalize_arabic_eq_normCore (s : Str) : normalize_arabic s = normCore s := by
  cases s <;> simp [normalize_arabic, normCore]

/-- C8: `normalize_arabic` is idempotent on every string, and is the
identity on the empty string. -/
theorem normalize_arabic_idempotent :
    (∀ s : Str, normalize_arabic (normalize_arabic s) = normalize_arabic s) ∧
      normalize_arabic [] = [] := by
  constructor
  · intro s
    simp only [normalize_arabic_eq_normCore, normCore_eq_filterMap,
      List.filterMap_filterMap]
    apply List.filterMap_congr
    intro c _
    by_cases h : isDiacritic (normChar c) = true
    · simp [h]
    · simp only [Bool.not_eq_true] at h
      simp [h, normChar_idem]
  · rfl

/-! ## Month Trie / DateFinder (C4): lines 72-84 and 147-186 of the source. -/

/-- A `TrieNode`: a terminal flag and the `children` mapping, kept as an
association list in Python-dict insertion order. -/
inductive Trie where
  | node (isEnd : Bool) (children : List (Char × Trie))

/-- The terminal flag of a trie node. -/
def Trie.isEnd : Trie → Bool
  | .node e _ => e

/-- `char in node.children` / `node.children[char]` lookup (read-only). -/
def lookupChild : List (Char × Trie) → Char → Option Trie
  | [], _ => none
  | (d, t) :: rest, c => if d = c then some t else lookupChild rest c

/-- Write `node.children[char] = t`, appending at the end on a missing key
(the `defaultdict` behaviour of `_build_trie`). -/
def setChild : List (Char × Trie) → Char → Trie → List (Char × Trie)
  | [], c, t => [(c, t)]
  | (d, u) :: rest, c, t =>
    if d = c then (d, t) :: rest else (d, u) :: setChild rest c t

/-- `node.children[char]` under `defaultdict(TrieNode)`: the existing child,
or a fresh empty node. -/
def childOr (ch : List (Char × Trie)) (c : Char) : Trie :=
  match lookupChild ch c with
  | some t => t
  | none => .node false []

/-- The inner loop of `_build_trie`: walk/create the child chain for one
processed word and mark its last node terminal. -/
def Trie.insert : Trie → Str → Trie
  | .node _ ch, [] => .node true ch
  | .node e ch, c :: cs => .node e (setChild ch c ((childOr ch c).insert cs))

/-- The inner loop of `contains_month`: from a start node, descend child by
child, returning `true` on the first terminal node reached. -/
def Trie.walkFrom : Trie → Str → Bool
  | _, [] => false
  | .node _ ch, c :: cs =>
    match lookupChild ch c with
    | none => false
    | some t => t.isEnd || t.walkFrom cs

/-- `DATE_KEYWORDS['en']`. -/
def DATE_KEYWORDS_en : List String :=
  ["January", "February", "March", "April", "May", "June", "July", "August",
   "September", "October", "November", "December", "Jan", "Feb", "Mar", "Apr",
   "May", "Jun", "Jul", "Aug", "Sep", "Oct", "Nov", "Dec"]

/-- `DATE_KEYWORDS['es']`. -/
def DATE_KEYWORDS_es : List String :=
  ["enero", "febrero", "marzo", "abril", "mayo", "junio", "julio", "agosto",
   "septiembre", "octubre", "noviembre", "diciembre", "ene", "feb", "mar",
   "abr", "may", "jun", "jul", "ago", "sep", "oct", "nov", "dic"]

/-- `DATE_KEYWORDS['de']`. -/
def DATE_KEYWORDS_de : List String :=
  ["Januar", "Februar", "März", "April", "Mai", "Juni", "Juli", "August",
   "September", "Oktober", "November", "Dezember", "Jan", "Feb", "Mär", "Apr",
   "Mai", "Jun", "Jul", "Aug", "Sep", "Okt", "Nov", "Dez"]

/-- `DATE_KEYWORDS['fr']`. -/
def DATE_KEYWORDS_fr : List String :=
  ["janvier", "février", "mars", "avril", "mai", "juin", "juillet", "août",
   "septembre", "octobre", "novembre", "décembre", "janv", "févr", "mars",
   "avr", "mai", "juin", "juil", "août", "sept", "oct", "nov", "déc"]

/-- `DATE_KEYWORDS['ar']` (pre-normalized in the source). -/
def DATE_KEYWORDS_ar : List String :=
  ["يناير", "فبراير", "مارس", "ابريل", "مايو", "يونيو", "يوليو", "اغسطس",
   "سبتمبر", "اكتوبر", "نوفمبر", "ديسمبر"]

/-- The month-name lists in Python-dict iteration order (en, es, de, fr, ar). -/
def allDateKeywords : List Str :=
  (DATE_KEYWORDS_en ++ DATE_KEYWORDS_es ++ DATE_KEYWORDS_de ++ DATE_KEYWORDS_fr
    ++ DATE_KEYWORDS_ar).map String.data

/-- `_build_trie`: insert every keyword, lower-cased, into an empty trie. -/
def buildTrie (words : List Str) : Trie :=
  words.foldl (fun t w => t.insert (pyLower w)) (.node false [])

/-- The trie held by the `DateFinder` instance built from `DATE_KEYWORDS`. -/
def dateFinderRoot : Trie := buildTrie allDateKeywords

/-- `DateFinder.contains_month(text)`: lower-case and Arabic-normalize the
input, then run the trie sweep from every start index. -/
def contains_month (root : Trie) (text : Str) : Bool :=
  let normalized := normalize_arabic (pyLower text)
  (List.range normalized.length).any (fun i => root.walkFrom (normalized.drop i))

theorem walkFrom_emptyNode (w : Str) : Trie.walkFrom (.node false []) w = false := by
  cases w <;> simp [Trie.walkFrom, lookupChild]

theorem lookupChild_setChild_ne (ch : List (Char × Trie)) (c d : Char) (t : Trie)
    (h : d ≠ c) : lookupChild (setChild ch d t) c = lookupChild ch c := by
  induction ch with
  | nil => simp [setChild, lookupChild, h]
  | cons p rest ih =>
    obtain ⟨e, u⟩ := p
    by_cases he : e = d
    · subst he
      simp [setChild, lookupChild, h]
    · simp [setChild, lookupChild, he, ih]

theorem lookupChild_setChild_eq (ch : List (Char × Trie)) (d : Char) (t : Trie) :
    lookupChild (setChild ch d t) d = some t := by
  induction ch with
  | nil => simp [setChild, lookupChild]
  | cons p rest ih =>
    obtain ⟨e, u⟩ := p
    by_cases he : e = d
    · subst he
      simp [setChild, lookupChild]
    · simp [setChild, lookupChild, he, ih]

theorem insert_isEnd (t : Trie) (v : Str) :
    (t.insert v).isEnd = (v.isEmpty || t.isEnd) := by
  cases t with
  | node e ch => cases v <;> simp [Trie.insert, Trie.isEnd, List.isEmpty]

theorem walkFrom_insert (w : Str) : ∀ (t : Trie) (v : Str),
    (t.insert v).walkFrom w =
      (t.walkFrom w || (!v.isEmpty && v.isPrefixOf w)) := by
  induction w with
  | nil =>
    intro t v
    cases t with
    | node e ch =>
      cases v <;> simp [Trie.walkFrom, Trie.insert, List.isPrefixOf]
  | cons c cs ih =>
    intro t v
    cases t with
    | node e ch =>
      cases v with
      | nil => simp [Trie.insert, Trie.walkFrom]
      | cons d ds =>
        by_cases hdc : d = c
        · subst hdc
          have hlk2 : lookupChild (setChild ch d ((childOr ch d).insert ds)) d =
              some ((childOr ch d).insert ds) :=
            lookupChild_setChild_eq ch d _
          simp only [Trie.insert, Trie.walkFrom, hlk2]
          rw [ih, insert_isEnd]
          cases hlo : lookupChild ch d with
          | none =>
            cases ds with
            | nil => simp [childOr, hlo, walkFrom_emptyNode, Trie.isEnd,
                List.isPrefixOf]
            | cons e' es =>
              simp [childOr, hlo, walkFrom_emptyNode, Trie.isEnd,
                List.isPrefixOf, List.isEmpty]
          | some t =>
            cases ds with
            | nil => simp [childOr, hlo, List.isPrefixOf]
            | cons e' es =>
              simp [childOr, hlo, List.isPrefixOf, List.isEmpty, Bool.or_assoc]
        · have hpre : (d :: ds).isPrefixOf (c :: cs) = false := by
            simp [List.isPrefixOf, hdc]
          have hlk2 : lookupChild (setChild ch d ((childOr ch d).insert ds)) c =
              lookupChild ch c :=
            lookupChild_setChild_ne ch c d _ hdc
          simp only [Trie.insert, Trie.walkFrom, hlk2, hpre]
          simp

theorem walkFrom_foldl (l : List Str) : ∀ (t : Trie) (w : Str),
    (l.foldl (fun t v => t.insert (pyLower v)) t).walkFrom w =
      (t.walkFrom w ||
        l.any (fun v => !(pyLower v).isEmpty && (pyLower v).isPrefixOf w)) := by
  induction l with
  | nil => intro t w; simp
  | cons v l ih =>
    intro t w
    simp only [List.foldl_cons, List.any_cons]
    rw [ih, walkFrom_insert]
    simp [Bool.or_assoc]

theorem strIn_of_drop (p : Str) : ∀ (s : Str) (i : Nat),
    p.isPrefixOf (s.drop i) = true → strIn p s = true := by
  intro s
  induction s with
  | nil =>
    intro i h
    simp at h
    simp [strIn, h, List.isEmpty]
  | cons c t ih =>
    intro i h
    cases i with
    | zero => simp only [List.drop_zero] at h; simp [strIn, h]
    | succ j =>
      simp only [List.drop_succ_cons] at h
      simp [strIn, ih j h]

/-- C4: if no (lower-cased) month keyword occurs as a substring of the
lower-cased, Arabic-normalized input, and the input has no digits, then
`contains_month` returns `false`.  (The digit condition is part of the
claim; it is not needed by the code.) -/
theorem contains_month_false_of_no_month (s : Str)
    (hkw : ∀ kw ∈ allDateKeywords,
      strIn (pyLower kw) (normalize_arabic (pyLower s)) = false)
    (hdig : ∀ c ∈ s, ¬ c.isDigit) :
    contains_month dateFinderRoot s = false := by
  by_contra hcm
  rw [Bool.not_eq_false] at hcm
  unfold contains_month at hcm
  rw [List.any_eq_true] at hcm
  obtain ⟨i, _, hwalk⟩ := hcm
  unfold dateFinderRoot buildTrie at hwalk
  rw [walkFrom_foldl, walkFrom_emptyNode, Bool.false_or, List.any_eq_true] at hwalk
  obtain ⟨kw, hmem, hhit⟩ := hwalk
  rw [Bool.and_eq_true] at hhit
  have := strIn_of_drop (pyLower kw) (normalize_arabic (pyLower s)) i hhit.2
  rw [hkw kw hmem] at this
  exact Bool.false_ne_true this

/-- Witness for C4: the ordinary word `'hello'` contains no month keyword
and no digit, and `contains_month` reports `false` on it. -/
theorem contains_month_false_of_no_month_witness :
    (∀ kw ∈ allDateKeywords,
      strIn (pyLower kw) (normalize_arabic (pyLower ('h' :: 'e' :: 'l' :: 'l' :: 'o' :: []))) = false) ∧
    (∀ c ∈ ('h' :: 'e' :: 'l' :: 'l' :: 'o' :: []), ¬ c.isDigit) ∧
    contains_month dateFinderRoot ('h' :: 'e' :: 'l' :: 'l' :: 'o' :: []) = false :=
  ⟨by decide, by decide,
    contains_month_false_of_no_month ('h' :: 'e' :: 'l' :: 'l' :: 'o' :: [])
      (by decide) (by decide)⟩

/-! ## DOM geometry (C5): `calculate_dom_distance`, `calculate_proximity_score`
(lines 635-689).  A DOM node is represented by its canonical path, already
split into nonempty segments (the source obtains it from the external lxml
tree via `getpath` and `split('/')`); the absent node (`None`, or an lxml
error) is `Option.none`. -/

/-- The common-ancestor prefix length loop of `calculate_dom_distance`. -/
def commonPathLen : List String → List String → Nat
  | a :: as, b :: bs => if a = b then commonPathLen as bs + 1 else 0
  | _, _ => 0

/-- `calculate_dom_distance(node1, node2)`: `float('inf')` (here `none`)
when either node is absent, else the sum of the two path-suffix lengths
past the common ancestor. -/
def calculate_dom_distance (node1 node2 : Option (List String)) : Option Nat :=
  match node1, node2 with
  | some p1, some p2 =>
    let cl := commonPathLen p1 p2
    some ((p1.length - cl) + (p2.length - cl))
  | _, _ => none

/-! ### Exact model of the IEEE binary64 arithmetic used by the scoring

Python computes the proximity score and the weight products with `float`s.
On the normal range (all values here), a binary64 operation returns the
exact rational result rounded to 53 significant bits, ties to even.  Every
float in the source is nonnegative, so a float is modelled exactly as a
fraction of naturals (`F64`), and each operation first forms the exact
rational result and then rounds it.  All functions are kernel-reducible
(plain `Nat` arithmetic), so concrete scores evaluate by `decide`. -/

/-- A nonnegative binary64 value, held exactly as `num / den` with `den` a
power of two. -/
structure F64 where
  num : Nat
  den : Nat
  deriving DecidableEq

/-- Fuel-driven `⌊log₂ n⌋` (0 for `n ≤ 1`); kernel-reducible. -/
def log2fuel : Nat → Nat → Nat
  | 0, _ => 0
  | fuel + 1, n => if n ≤ 1 then 0 else log2fuel fuel (n / 2) + 1

/-- `⌊log₂ n⌋` for `n ≥ 1`. -/
def natLog2 (n : Nat) : Nat := log2fuel n n

/-- Is `a / b ≥ 2^k` (for `b ≥ 1`)? -/
def fracGePow2 (a b : Nat) (k : Int) : Bool :=
  if 0 ≤ k then b * 2 ^ k.toNat ≤ a else b ≤ a * 2 ^ (-k).toNat

/-- For `a/b > 0`, the exponent `e` with `2^e ≤ a/b < 2^(e+1)`. -/
def fracLog2 (a b : Nat) : Int :=
  let k0 : Int := (natLog2 a : Int) - (natLog2 b : Int) - 1
  if fracGePow2 a b (k0 + 2) then k0 + 2
  else if fracGePow2 a b (k0 + 1) then k0 + 1
  else k0

/-- Round the positive rational `a / b` to 53 significant bits, ties to
even: the binary64 result of an exact operation on the normal range. -/
def roundPosF (a b : Nat) : F64 :=
  let e := fracLog2 a b
  let s : Int := 52 - e
  let A := if 0 ≤ s then a * 2 ^ s.toNat else a
  let B := if 0 ≤ s then b else b * 2 ^ (-s).toNat
  let f := A / B
  let r := A % B
  let n := if 2 * r < B then f else if B < 2 * r then f + 1 else
    if f % 2 = 0 then f else f + 1
  if 0 ≤ s then ⟨n, 2 ^ s.toNat⟩ else ⟨n * 2 ^ (-s).toNat, 1⟩

/-- The binary64 value of the exact nonnegative rational `a / b`. -/
def flq (a b : Nat) : F64 := if a = 0 then ⟨0, 1⟩ else roundPosF a b

/-- Float division of two nonnegative integers (`a / b` in Python). -/
def fdivNat (a b : Nat) : F64 := flq a b

/-- `1 - x` in binary64 for a float `x ≤ 1`. -/
def foneSub (x : F64) : F64 := flq (x.den - x.num) x.den

/-- `k * x` in binary64 for an exactly representable integer `k`. -/
def fmulNat (k : Nat) (x : F64) : F64 := flq (k * x.num) x.den

/-- `x * y` in binary64. -/
def fmul (x y : F64) : F64 := flq (x.num * y.num) (x.den * y.den)

/-- Python `int()` on a nonnegative float: truncation. -/
def pyInt (x : F64) : Int := ((x.num / x.den : Nat) : Int)

/-- Strict comparison of two floats (exact, as IEEE comparison is). -/
def fltF (x y : F64) : Bool := x.num * y.den < y.num * x.den

/-- Strict comparison of a float with a natural number. -/
def fltNat (x : F64) (n : Nat) : Bool := x.num < n * x.den

/-- Strict comparison of a natural number with a float. -/
def natLtF (n : Nat) (x : F64) : Bool := n * x.den < x.num

/-- The float literal `0.3` (nearest double to 3/10). -/
def lit03 : F64 := flq 3 10

/-- The float literal `0.7` (nearest double to 7/10). -/
def lit07 : F64 := flq 7 10

/-- The float literal `0.9` (nearest double to 9/10). -/
def lit09 : F64 := flq 9 10

/-- `calculate_proximity_score(candidate, reference, max_distance)`:
0 when the reference is absent, the distance is infinite, or
`distance >= max_distance`; otherwise `max(0, int(100 * (1 - d/max)))`
computed in binary64: the division, subtraction and multiplication each
round to the nearest double before `int()` truncates. -/
def calculate_proximity_score (candidate reference : Option (List String))
    (max_distance : Nat) : Int :=
  match reference with
  | none => 0
  | some _ =>
    match calculate_dom_distance candidate reference with
    | none => 0
    | some d =>
      if max_distance ≤ d then 0
      else max 0 (pyInt (fmulNat 100 (foneSub (fdivNat d max_distance))))

/-- The proximity value as a function of a finite distance, at the
`max_distance = 10` used by every call site in the source. -/
def proxVal (d : Nat) : Int :=
  if 10 ≤ d then 0
  else max 0 (pyInt (fmulNat 100 (foneSub (fdivNat d 10))))

theorem calculate_proximity_score_eq_proxVal (c : Option (List String))
    (q : List String) (d : Nat) (h : calculate_dom_distance c (some q) = some d) :
    calculate_proximity_score c (some q) 10 = proxVal d := by
  unfold calculate_proximity_score proxVal
  rw [h]

/-- Closed form of the float computation at `max_distance = 10`: the
truncated float drops below the exact value at `d = 8` and `d = 9`. -/
theorem proxVal_closed_form (d : Nat) :
    proxVal d = if d ≤ 7 then 100 - 10 * (d : Int)
      else if d = 8 then 19 else if d = 9 then 9 else 0 := by
  by_cases h10 : 10 ≤ d
  · have h7 : ¬ d ≤ 7 := by omega
    have h8 : d ≠ 8 := by omega
    have h9 : d ≠ 9 := by omega
    simp [proxVal, h10, h7, h8, h9]
  · interval_cases d <;> decide

theorem proxVal_antitone {d₁ d₂ : Nat} (h : d₁ ≤ d₂) : proxVal d₂ ≤ proxVal d₁ := by
  rw [proxVal_closed_form, proxVal_closed_form]
  split_ifs <;> omega

/-- C5 counterexample: at DOM distance 8 with `max_distance = 10` the code
returns 19, while the claimed `⌊100 * (1 - d/max_distance)⌋` is 20 — the
float product `100 * (1 - 8/10)` truncates to 19. -/
theorem calculate_proximity_score_counterexample :
    calculate_dom_distance (some ["html", "a", "b", "c", "d"])
        (some ["html", "w", "x", "y", "z"]) = some 8 ∧
    calculate_proximity_score (some ["html", "a", "b", "c", "d"])
        (some ["html", "w", "x", "y", "z"]) 10 = 19 ∧
    ⌊(100 : ℚ) * (1 - (8 : ℚ) / (10 : ℚ))⌋ = 20 := by
  refine ⟨by decide, by decide, ?_⟩
  have : (100 : ℚ) * (1 - (8 : ℚ) / (10 : ℚ)) = 20 := by norm_num
  rw [this]
  norm_num

/-- C5 (amended): with `max_distance = 10` (the value used at every call
site), the proximity score is the binary64 truncation of
`100 * (1 - d/10)`: it equals `100 - 10*d` for `d ≤ 7` but 19 at `d = 8`
and 9 at `d = 9`; it is 0 for `d ≥ 10`, for an infinite distance, and for
an absent reference node; and it is monotonically non-increasing in the
distance. -/
theorem calculate_proximity_score_spec :
    (∀ (c : Option (List String)) (q : List String) (d : Nat),
        calculate_dom_distance c (some q) = some d →
        calculate_proximity_score c (some q) 10 =
          (if d ≤ 7 then 100 - 10 * (d : Int)
           else if d = 8 then 19 else if d = 9 then 9 else 0)) ∧
    (∀ (c : Option (List String)) (m : Nat), calculate_proximity_score c none m = 0) ∧
    (∀ (q : List String) (m : Nat), calculate_proximity_score none (some q) m = 0) ∧
    (∀ (c : Option (List String)) (q : List String) (m d : Nat),
        calculate_dom_distance c (some q) = some d → m ≤ d →
        calculate_proximity_score c (some q) m = 0) ∧
    (∀ (c₁ c₂ : Option (List String)) (q₁ q₂ : List String) (d₁ d₂ : Nat),
        calculate_dom_distance c₁ (some q₁) = some d₁ →
        calculate_dom_distance c₂ (some q₂) = some d₂ → d₁ ≤ d₂ →
        calculate_proximity_score c₂ (some q₂) 10 ≤
          calculate_proximity_score c₁ (some q₁) 10) := by
  refine ⟨?_, ?_, ?_, ?_, ?_⟩
  · intro c q d hdist
    rw [calculate_proximity_score_eq_proxVal c q d hdist, proxVal_closed_form]
  · intro c m; rfl
  · intro q m; rfl
  · intro c q m d hdist hge
    unfold calculate_proximity_score
    rw [hdist]
    simp [hge]
  · intro c₁ c₂ q₁ q₂ d₁ d₂ h₁ h₂ hle
    rw [calculate_proximity_score_eq_proxVal c₁ q₁ d₁ h₁,
      calculate_proximity_score_eq_proxVal c₂ q₂ d₂ h₂]
    exact proxVal_antitone hle

/-- Witness for C5 at concrete paths: distance between `/html/body/div` and
`/html/body/span` is 2, giving score 80 with `max_distance = 10`. -/
theorem calculate_proximity_score_spec_witness :
    calculate_proximity_score (some ["html", "body", "div"])
      (some ["html", "body", "span"]) 10 = 80 := by
  have h := calculate_proximity_score_spec.1 (some ["html", "body", "div"])
    ["html", "body", "span"] 2 (by decide)
  rw [h]
  decide

/-! ## Naive datetimes as instants (seconds), modelling Python `datetime`
construction together with its `ValueError` on out-of-range fields. -/

/-- Python `calendar` leap-year rule (as used by `datetime`). -/
def isLeapYear (y : Nat) : Bool := (y % 4 = 0 && y % 100 ≠ 0) || y % 400 = 0

/-- Length of month `m` (1-12) in year `y`. -/
def daysInMonth (y m : Nat) : Nat :=
  if m = 2 then (if isLeapYear y then 29 else 28)
  else if m = 4 ∨ m = 6 ∨ m = 9 ∨ m = 11 then 30
  else 31

/-- Days in year `y` before month `m`. -/
def daysBeforeMonth (y m : Nat) : Nat :=
  (List.range (m - 1)).foldl (fun a i => a + daysInMonth y (i + 1)) 0

/-- Days before January 1 of year `y` (proleptic Gregorian, year 1 = 0). -/
def daysBeforeYear (y : Nat) : Nat :=
  365 * (y - 1) + (y - 1) / 4 + (y - 1) / 400 - (y - 1) / 100

/-- The instant (seconds since 0001-01-01 00:00:00) of a naive datetime. -/
def toInstant (y m d h mi s : Nat) : Int :=
  (((daysBeforeYear y + daysBeforeMonth y m + (d - 1)) * 86400
    + h * 3600 + mi * 60 + s : Nat) : Int)

/-- `datetime(y, m, d, h, mi, s)`: `none` models the `ValueError` raised on
out-of-range fields (`MINYEAR = 1`, `MAXYEAR = 9999`). -/
def mkDatetime (y m d h mi s : Nat) : Option Int :=
  if 1 ≤ y ∧ y ≤ 9999 ∧ 1 ≤ m ∧ m ≤ 12 ∧ 1 ≤ d ∧ d ≤ daysInMonth y m
      ∧ h ≤ 23 ∧ mi ≤ 59 ∧ s ≤ 59 then
    some (toInstant y m d h mi s)
  else none

/-! ## Hand-compiled matchers for the concrete regexes of
`parse_and_validate` (lines 393-596).  Each follows Python `re.search`
semantics: leftmost start position, and at a fixed position greedy
quantifiers with backtracking, `{n}` exact repetition, character classes. -/

/-- `int(g)` for a digit-only group. -/
def strToNat (s : Str) : Nat := s.foldl (fun a c => a * 10 + (c.toNat - 48)) 0

/-- Match exactly `n` digits (`\d{n}`) at the current position. -/
def takeDigitsExactly (n : Nat) (s : Str) : Option (Str × Str) :=
  let pre := s.take n
  if pre.length = n ∧ pre.all Char.isDigit then some (pre, s.drop n) else none

/-- The greedy alternatives of `\d{1,2}` at the current position
(two digits preferred, then one). -/
def take12 (s : Str) : List (Str × Str) :=
  (match takeDigitsExactly 2 s with | some r => [r] | none => []) ++
  (match takeDigitsExactly 1 s with | some r => [r] | none => [])

/-- Match one character of the class `seps` and return it with the rest. -/
def takeSep (seps : List Char) : Str → Option (Char × Str)
  | c :: rest => if seps.contains c then some (c, rest) else none
  | [] => none

/-- Match of `(\d{4})[sep](\d{1,2})[sep](\d{1,2})` anchored at the current
position, returning the three groups. -/
def matchP1At (s : Str) : Option (Str × Str × Str) :=
  match takeDigitsExactly 4 s with
  | none => none
  | some (g1, r1) =>
    match takeSep ['/', '-'] r1 with
    | none => none
    | some (_, r2) =>
      (take12 r2).findSome? fun (g2, r3) =>
        match takeSep ['/', '-'] r3 with
        | none => none
        | some (_, r4) =>
          match take12 r4 with
          | [] => none
          | (g3, _) :: _ => some (g1, g2, g3)

/-- `re.search` of the first URL pattern `(\d{4})[sep](\d{1,2})[sep](\d{1,2})`. -/
def searchP1 : Str → Option (Str × Str × Str)
  | [] => none
  | c :: t =>
    match matchP1At (c :: t) with
    | some g => some g
    | none => searchP1 t

/-- Match of `(\d{1,2})[sep](\d{1,2})[sep](\d{4})` anchored at the current
position. -/
def matchP2At (s : Str) : Option (Str × Str × Str) :=
  (take12 s).findSome? fun (g1, r1) =>
    match takeSep ['/', '-'] r1 with
    | none => none
    | some (_, r2) =>
      (take12 r2).findSome? fun (g2, r3) =>
        match takeSep ['/', '-'] r3 with
        | none => none
        | some (_, r4) =>
          match takeDigitsExactly 4 r4 with
          | none => none
          | some (g3, _) => some (g1, g2, g3)

/-- `re.search` of the second URL pattern `(\d{1,2})[sep](\d{1,2})[sep](\d{4})`. -/
def searchP2 : Str → Option (Str × Str × Str)
  | [] => none
  | c :: t =>
    match matchP2At (c :: t) with
    | some g => some g
    | none => searchP2 t

/-- Python `\w` on the repertoire relevant here: ASCII alphanumerics,
underscore, and the Arabic block (an under-approximation of Unicode `\w`
that is exact on the inputs the theorems evaluate). -/
def isWordChar (c : Char) : Bool :=
  c.isAlphanum || c = '_' || (0x600 ≤ c.val && c.val ≤ 0x6FF)

/-- `\b` between a preceding character (none at string start) and the next
input character (none at string end). -/
def atBoundary (prev : Option Char) (s : Str) : Bool :=
  let pw := match prev with | some c => isWordChar c | none => false
  let nw := match s with | c :: _ => isWordChar c | [] => false
  pw != nw

/-- `\b` immediately after a digit: the rest must start with a non-word
character (or be empty). -/
def boundaryAfterDigit (rest : Str) : Bool :=
  match rest with
  | [] => true
  | c :: _ => !isWordChar c

/-- `\s+` greedy (the count of whitespace never affects what follows, since
the continuation of every use starts with a non-space character). -/
def takeSpacesPlus (s : Str) : Option (Str × Str) :=
  let sp := s.takeWhile isSpaceChar
  if sp.isEmpty then none else some (sp, s.drop sp.length)

/-- The groups of the ISO pattern
`\b(\d{4})[sep3](\d{1,2})[sep3](\d{1,2})(?:\s+(\d{1,2}):(\d{1,2})(?::(\d{1,2}))?)?\b`. -/
structure IsoGroups where
  y : Str
  m : Str
  d : Str
  hh : Option Str
  mi : Option Str
  ss : Option Str

/-- The greedy alternatives of the optional time group
`\s+(\d{1,2}):(\d{1,2})(?::(\d{1,2}))?`, in regex preference order
(with seconds before without), each with its consumed text and rest. -/
def isoTimeVariants (s : Str) : List (Str × Str × Str × Option Str × Str) :=
  match takeSpacesPlus s with
  | none => []
  | some (sp, r0) =>
    (take12 r0).flatMap fun (hh, r1) =>
      match takeSep [':'] r1 with
      | none => []
      | some (_, r2) =>
        (take12 r2).flatMap fun (mi, r3) =>
          (match takeSep [':'] r3 with
           | none => []
           | some (_, r4) =>
             (take12 r4).map fun (ss, r5) =>
               (sp ++ hh ++ ':' :: mi ++ ':' :: ss, hh, mi, some ss, r5))
          ++ [(sp ++ hh ++ ':' :: mi, hh, mi, none, r3)]

/-- Match of the ISO pattern (with separator class `seps`) anchored at the
current position; returns the consumed text and the groups. -/
def matchIsoAt (seps : List Char) (prev : Option Char) (s : Str) :
    Option (Str × IsoGroups) :=
  if atBoundary prev s = false then none
  else
    match takeDigitsExactly 4 s with
    | none => none
    | some (y, r1) =>
      match takeSep seps r1 with
      | none => none
      | some (c1, r2) =>
        (take12 r2).findSome? fun (m, r3) =>
          match takeSep seps r3 with
          | none => none
          | some (c2, r4) =>
            (take12 r4).findSome? fun (d, r5) =>
              let base := y ++ c1 :: m ++ c2 :: d
              let withT := (isoTimeVariants r5).findSome? fun (cons, hh, mi, ss, r6) =>
                if boundaryAfterDigit r6 then
                  some (base ++ cons,
                    ({ y := y, m := m, d := d, hh := some hh, mi := some mi,
                       ss := ss } : IsoGroups))
                else none
              match withT with
              | some r => some r
              | none =>
                if boundaryAfterDigit r5 then
                  some (base, { y := y, m := m, d := d, hh := none, mi := none,
                                ss := none })
                else none

/-- The scan of `re.search` for the ISO pattern, carrying the previous
character for the leading `\b`. -/
def searchIsoAux (seps : List Char) (prev : Option Char) :
    Str → Option (Str × IsoGroups)
  | [] => none
  | c :: t =>
    match matchIsoAt seps prev (c :: t) with
    | some r => some r
    | none => searchIsoAux seps (some c) t

/-- `re.search(iso_pattern, s)`. -/
def searchIso (seps : List Char) (s : Str) : Option (Str × IsoGroups) :=
  searchIsoAux seps none s

/-! ## `parse_and_validate` (lines 393-596).  The external `dateparser`
library — together with the timezone-artifact stripping and `DATE_ORDER`
settings selection that only shape its input — and the
`_extract_best_date_string` text pipeline (whose output is fed back into
the same guarded loop) are abstracted as an environment; every theorem
below holds for an arbitrary environment. -/

/-- The external/abstracted collaborators of `parse_and_validate`:
`dateparse attempt from_url` models `dateparser.parse` applied to the
timezone-cleaned attempt under the selected `DATE_ORDER` settings,
returning a naive instant; `extractBest` models
`self._extract_best_date_string`. -/
structure ParseEnv where
  dateparse : Str → Bool → Option Int
  extractBest : Str → Str

/-- `timedelta(hours=24)` / `timedelta(days=7)` in seconds. -/
def futureThreshold (from_heuristic : Bool) : Int :=
  if from_heuristic then 86400 else 604800

/-- `1 <= month <= 12 and 1 <= day <= 31` guard, then `datetime(y, m, d)`
(whose own `ValueError` is caught and yields `none`). -/
def mkUrlDate (y m d : Nat) : Option Int :=
  if 1 ≤ m ∧ m ≤ 12 ∧ 1 ≤ d ∧ d ≤ 31 then mkDatetime y m d 0 0 0 else none

/-- The group-dispatch of the URL branch: year-first when the first group
has four digits, else day-month-year then month-day-year. -/
def urlTryGroups (g1 g2 g3 : Str) : Option Int :=
  if g1.length = 4 then
    mkUrlDate (strToNat g1) (strToNat g2) (strToNat g3)
  else
    match mkUrlDate (strToNat g3) (strToNat g2) (strToNat g1) with
    | some dt => some dt
    | none => mkUrlDate (strToNat g3) (strToNat g1) (strToNat g2)

/-- The `for pattern in url_patterns` loop of the URL branch over the
stripped URL date string.  Note: a date produced here is returned with no
future-date check. -/
def url_branch (clean : Str) : Option Int :=
  let viaP2 : Option Int :=
    match searchP2 clean with
    | some (g1, g2, g3) => urlTryGroups g1 g2 g3
    | none => none
  match searchP1 clean with
  | some (g1, g2, g3) =>
    match urlTryGroups g1 g2 g3 with
    | some dt => some dt
    | none => viaP2
  | none => viaP2

/-- The `for attempt_str in parsing_attempts` loop: skip falsy attempts,
query the (abstracted) downstream parser, reject beyond-threshold
futures, return the first surviving instant. -/
def attemptsLoop (env : ParseEnv) (now : Int) (fh fu : Bool) :
    List Str → Option Int
  | [] => none
  | a :: rest =>
    if a.isEmpty then attemptsLoop env now fh fu rest
    else
      match env.dateparse a fu with
      | none => attemptsLoop env now fh fu rest
      | some dt =>
        if now + futureThreshold fh < dt then attemptsLoop env now fh fu rest
        else some dt

/-- Construction of `parsing_attempts`: the original string, plus the
`_extract_best_date_string` refinement for heuristic calls when it is
distinct and truthy. -/
def pv_attempts (env : ParseEnv) (now : Int) (date_str : Str)
    (fh fu : Bool) : Option Int :=
  let attempts := date_str ::
    (if fh then
      (let best := env.extractBest date_str
       if best ≠ date_str ∧ ¬best.isEmpty then [best] else [])
     else [])
  attemptsLoop env now fh fu attempts

/-- `parse_and_validate(date_str, from_heuristic, from_url)` (closure of
`get_publishing_date` over `now`): empty-string early return; URL-pattern
branch (no future check); explicit ISO handling with the future-threshold
check; then the attempts loop over the downstream parser. -/
def parse_and_validate (env : ParseEnv) (now : Int) (date_str : Str)
    (from_heuristic from_url : Bool) : Option Int :=
  if date_str.isEmpty then none
  else
    let urlResult : Option Int :=
      if from_url then url_branch (stripSlash date_str) else none
    match urlResult with
    | some dt => some dt
    | none =>
      match searchIso ['-', '.', '/'] date_str with
      | some (_, g) =>
        let y := strToNat g.y
        let m := strToNat g.m
        let d := strToNat g.d
        let h := match g.hh with | some x => strToNat x | none => 0
        let mi := match g.mi with | some x => strToNat x | none => 0
        let ss := match g.ss with | some x => strToNat x | none => 0
        if 1 ≤ m ∧ m ≤ 12 ∧ 1 ≤ d ∧ d ≤ 31 then
          match mkDatetime y m d h mi ss with
          | some dt =>
            if now + futureThreshold from_heuristic < dt then none
            else some dt
          | none => pv_attempts env now date_str from_heuristic from_url
        else pv_attempts env now date_str from_heuristic from_url
      | none => pv_attempts env now date_str from_heuristic from_url

theorem attemptsLoop_le (env : ParseEnv) (now : Int) (fh fu : Bool) :
    ∀ (l : List Str) (t : Int), attemptsLoop env now fh fu l = some t →
      t ≤ now + futureThreshold fh := by
  intro l
  induction l with
  | nil => intro t h; simp [attemptsLoop] at h
  | cons a rest ih =>
    intro t h
    unfold attemptsLoop at h
    by_cases he : a.isEmpty
    · rw [if_pos he] at h
      exact ih t h
    · rw [if_neg he] at h
      cases hdp : env.dateparse a fu with
      | none => rw [hdp] at h; exact ih t h
      | some dt =>
        rw [hdp] at h
        dsimp only at h
        by_cases hfut : now + futureThreshold fh < dt
        · rw [if_pos hfut] at h; exact ih t h
        · rw [if_neg hfut] at h
          cases h
          exact not_lt.mp hfut

theorem pv_attempts_le (env : ParseEnv) (now : Int) (s : Str) (fh fu : Bool)
    (t : Int) (h : pv_attempts env now s fh fu = some t) :
    t ≤ now + futureThreshold fh :=
  attemptsLoop_le env now fh fu _ t h

/-- C1 (amended): whenever the result does not come out of the `from_url`
URL-pattern branch — in particular for every call with `from_url = false` —
a returned instant `t` satisfies `t ≤ now + 7 days` for
`from_heuristic = false` and `t ≤ now + 24 hours` for
`from_heuristic = true`; this holds for an arbitrary downstream-parser
environment. -/
theorem parse_and_validate_future_bound (env : ParseEnv) (now : Int) (s : Str)
    (fh fu : Bool) (t : Int)
    (hurl : fu = true → url_branch (stripSlash s) = none)
    (hres : parse_and_validate env now s fh fu = some t) :
    t ≤ now + futureThreshold fh := by
  unfold parse_and_validate at hres
  by_cases hemp : s.isEmpty
  · rw [if_pos hemp] at hres; cases hres
  · rw [if_neg hemp] at hres
    have hurlnone : (if fu then url_branch (stripSlash s) else none) = none := by
      cases fu with
      | false => rfl
      | true => simpa using hurl rfl
    rw [hurlnone] at hres
    simp only at hres
    cases hiso : searchIso ['-', '.', '/'] s with
    | none =>
      rw [hiso] at hres
      exact pv_attempts_le env now s fh fu t hres
    | some mg =>
      rw [hiso] at hres
      obtain ⟨matched, g⟩ := mg
      dsimp only at hres
      by_cases hb : 1 ≤ strToNat g.m ∧ strToNat g.m ≤ 12 ∧ 1 ≤ strToNat g.d
          ∧ strToNat g.d ≤ 31
      · rw [if_pos hb] at hres
        cases hmk : mkDatetime (strToNat g.y) (strToNat g.m) (strToNat g.d)
            (match g.hh with | some x => strToNat x | none => 0)
            (match g.mi with | some x => strToNat x | none => 0)
            (match g.ss with | some x => strToNat x | none => 0) with
        | none =>
          rw [hmk] at hres
          exact pv_attempts_le env now s fh fu t hres
        | some dt =>
          rw [hmk] at hres
          dsimp only at hres
          by_cases hfut : now + futureThreshold fh < dt
          · rw [if_pos hfut] at hres; cases hres
          · rw [if_neg hfut] at hres
            cases hres
            exact not_lt.mp hfut
      · rw [if_neg hb] at hres
        exact pv_attempts_le env now s fh fu t hres

/-- Environment for concrete evaluations: the downstream parser never
answers and the extractor is the identity. -/
def noneEnv : ParseEnv := { dateparse := fun _ _ => none, extractBest := fun s => s }

/-- Environment whose downstream parser always answers instant 0. -/
def zeroEnv : ParseEnv := { dateparse := fun _ _ => some 0, extractBest := fun s => s }

/-- Witness for the amended C1 theorem: with `from_url = false` and a
downstream parser answering instant 0 at `now = 0`, the returned instant 0
is within `now + 7 days`. -/
theorem parse_and_validate_future_bound_witness :
    parse_and_validate zeroEnv 0 ('x' :: []) false false = some 0 ∧
      (0 : Int) ≤ 0 + futureThreshold false :=
  ⟨by decide,
    parse_and_validate_future_bound zeroEnv 0 ('x' :: []) false false 0
      (fun h => (Bool.false_ne_true h).elim) (by decide)⟩

/-- C1 counterexample: with `from_url = true`, the URL string
`'2999/01/01'` is returned as the instant of 2999-01-01 although it is far
beyond `now + 7 days` (here `now = 0`, i.e. 0001-01-01): the URL-pattern
branch performs no future-date validation. -/
theorem parse_and_validate_url_future_counterexample :
    parse_and_validate noneEnv 0
        ('2' :: '9' :: '9' :: '9' :: '/' :: '0' :: '1' :: '/' :: '0' :: '1' :: [])
        false true = some 94607740800 ∧
      (0 : Int) + futureThreshold false < 94607740800 := by
  constructor
  · decide
  · decide

/-! ## The regexes of `is_likely_date_text` and of the tier-3 filter
(lines 691-757 and 835), hand-compiled with `re.search` semantics. -/

/-- Scan every start position of `re.search` for an anchored boolean
matcher, carrying the previous character for `\b`. -/
def searchBool (m : Option Char → Str → Bool) : Option Char → Str → Bool
  | _, [] => false
  | prev, c :: t => m prev (c :: t) || searchBool m (some c) t

/-- The greedy alternatives of `\d{lo,hi}` (longest first). -/
def takeDigitsRange (lo hi : Nat) (s : Str) : List (Str × Str) :=
  ((List.range (hi + 1 - lo)).map (fun i => hi - i)).filterMap
    (fun n => takeDigitsExactly n s)

/-- The rests after each alternative of a word alternation, in pattern
order. -/
def altWordRests (words : List Str) (s : Str) : List Str :=
  words.filterMap (fun w => if w.isPrefixOf s then some (s.drop w.length) else none)

/-- `\s*` (deterministic: every continuation starts with a non-space). -/
def skipSpaces (s : Str) : Str := s.dropWhile isSpaceChar

/-- `\s*,?\s*` (deterministic for the same reason). -/
def skipSpacesCommaSpaces (s : Str) : Str :=
  let s1 := skipSpaces s
  let s2 := match s1 with | ',' :: r => r | _ => s1
  skipSpaces s2

/-- `\s*:?\s*` (deterministic). -/
def skipSpacesColonSpaces (s : Str) : Str :=
  let s1 := skipSpaces s
  let s2 := match s1 with | ':' :: r => r | _ => s1
  skipSpaces s2

/-- The full English month names of the strict patterns. -/
def MONTHS_EN_FULL : List Str :=
  (["january", "february", "march", "april", "may", "june", "july", "august",
    "september", "october", "november", "december"]).map String.data

/-- The Arabic month names (hamza forms) of the strict patterns. -/
def MONTHS_AR_HAMZA : List Str :=
  (["يناير", "فبراير", "مارس", "أبريل", "مايو", "يونيو", "يوليو", "أغسطس",
    "سبتمبر", "أكتوبر", "نوفمبر", "ديسمبر"]).map String.data

/-- The Spanish month names of the strict patterns. -/
def MONTHS_ES_FULL : List Str :=
  (["enero", "febrero", "marzo", "abril", "mayo", "junio", "julio", "agosto",
    "septiembre", "octubre", "noviembre", "diciembre"]).map String.data

/-- The English weekday names. -/
def WEEKDAYS_EN : List Str :=
  (["monday", "tuesday", "wednesday", "thursday", "friday", "saturday",
    "sunday"]).map String.data

/-- The Arabic weekday names. -/
def WEEKDAYS_AR : List Str :=
  (["الاثنين", "الثلاثاء", "الأربعاء", "الخميس", "الجمعة", "السبت",
    "الأحد"]).map String.data

/-- The publish-marker words of the last strict pattern. -/
def PUBLISHED_WORDS : List Str :=
  (["published", "updated", "posted", "created", "تاريخ", "نشر",
    "محدث"]).map String.data

/-- The am/pm markers. -/
def AMPM_WORDS : List Str := (["am", "pm", "ص", "م"]).map String.data

/-- The `date_words` list of the relaxed check (source lines 741-751). -/
def DATE_WORDS_RELAXED : List Str :=
  MONTHS_EN_FULL ++ WEEKDAYS_EN ++ MONTHS_AR_HAMZA ++ WEEKDAYS_AR

/-- Strict pattern 1: `\d{1,2}` sep `\d{1,2}` sep `\d{2,4}`, in word
boundaries, sep one of slash or dash. -/
def matchSlashDateAt (prev : Option Char) (s : Str) : Bool :=
  atBoundary prev s &&
  ((take12 s).any fun (_, r1) =>
    match takeSep ['/', '-'] r1 with
    | some (_, r2) =>
      (take12 r2).any fun (_, r3) =>
        match takeSep ['/', '-'] r3 with
        | some (_, r4) =>
          (takeDigitsRange 2 4 r4).any fun (_, r5) => boundaryAfterDigit r5
        | none => false
    | none => false)

/-- Strict pattern 2: `\d{4}` sep `\d{1,2}` sep `\d{1,2}` in word
boundaries. -/
def matchYmdAt (prev : Option Char) (s : Str) : Bool :=
  atBoundary prev s &&
  (match takeDigitsExactly 4 s with
   | some (_, r1) =>
     (match takeSep ['/', '-'] r1 with
      | some (_, r2) =>
        (take12 r2).any fun (_, r3) =>
          match takeSep ['/', '-'] r3 with
          | some (_, r4) => (take12 r4).any fun (_, r5) => boundaryAfterDigit r5
          | none => false
      | none => false)
   | none => false)

/-- Strict patterns 3/5: day, `\s+`, month name, `\s+`, 4-digit year. -/
def matchDayMonthYearEnAt (months : List Str) (prev : Option Char)
    (s : Str) : Bool :=
  atBoundary prev s &&
  ((take12 s).any fun (_, r1) =>
    match takeSpacesPlus r1 with
    | some (_, r2) =>
      (altWordRests months r2).any fun r3 =>
        match takeSpacesPlus r3 with
        | some (_, r4) =>
          (match takeDigitsExactly 4 r4 with
           | some (_, r5) => boundaryAfterDigit r5
           | none => false)
        | none => false
    | none => false)

/-- Strict pattern 4: day, `\s+`, Arabic month, `\s*,?\s*`, 4-digit year. -/
def matchDayMonthYearArAt (months : List Str) (prev : Option Char)
    (s : Str) : Bool :=
  atBoundary prev s &&
  ((take12 s).any fun (_, r1) =>
    match takeSpacesPlus r1 with
    | some (_, r2) =>
      (altWordRests months r2).any fun r3 =>
        match takeDigitsExactly 4 (skipSpacesCommaSpaces r3) with
        | some (_, r5) => boundaryAfterDigit r5
        | none => false
    | none => false)

/-- The alternatives of the hour group `([01]?\d|2[0-3])`, in pattern
order. -/
def hourRests (s : Str) : List Str :=
  (match s with
   | a :: b :: r => if (a = '0' || a = '1') && b.isDigit then [r] else []
   | _ => []) ++
  (match s with
   | a :: r => if a.isDigit then [r] else []
   | _ => []) ++
  (match s with
   | a :: b :: r => if a = '2' && ('0' ≤ b && b ≤ '3') then [r] else []
   | _ => [])

/-- Strict pattern 6: `HH:MM` in word boundaries. -/
def matchClockAt (prev : Option Char) (s : Str) : Bool :=
  atBoundary prev s &&
  ((hourRests s).any fun r1 =>
    match r1 with
    | ':' :: m1 :: m2 :: r2 =>
      ('0' ≤ m1 && m1 ≤ '5') && m2.isDigit && boundaryAfterDigit r2
    | _ => false)

/-- Strict pattern 7: `\d{1,2}:\d{2}\s*` then an am/pm marker, in word
boundaries. -/
def matchAmPmAt (prev : Option Char) (s : Str) : Bool :=
  atBoundary prev s &&
  ((take12 s).any fun (_, r1) =>
    match r1 with
    | ':' :: r1' =>
      (match takeDigitsExactly 2 r1' with
       | some (_, r2) =>
         (altWordRests AMPM_WORDS (skipSpaces r2)).any fun r3 =>
           match r3 with
           | [] => true
           | c :: _ => !isWordChar c
       | none => false)
    | _ => false)

/-- Strict pattern 8: English weekday, day, month, year. -/
def matchWeekdayEnAt (prev : Option Char) (s : Str) : Bool :=
  atBoundary prev s &&
  ((altWordRests WEEKDAYS_EN s).any fun r1 =>
    match takeSpacesPlus r1 with
    | some (_, r2) =>
      (take12 r2).any fun (_, r3) =>
        match takeSpacesPlus r3 with
        | some (_, r4) =>
          (altWordRests MONTHS_EN_FULL r4).any fun r5 =>
            match takeSpacesPlus r5 with
            | some (_, r6) =>
              (match takeDigitsExactly 4 r6 with
               | some (_, r7) => boundaryAfterDigit r7
               | none => false)
            | none => false
        | none => false
    | none => false)

/-- Strict pattern 9: Arabic weekday, `\s*`, day, `\s*`, Arabic month,
`\s*,?\s*`, year. -/
def matchWeekdayArAt (prev : Option Char) (s : Str) : Bool :=
  atBoundary prev s &&
  ((altWordRests WEEKDAYS_AR s).any fun r1 =>
    (take12 (skipSpaces r1)).any fun (_, r3) =>
      (altWordRests MONTHS_AR_HAMZA (skipSpaces r3)).any fun r5 =>
        match takeDigitsExactly 4 (skipSpacesCommaSpaces r5) with
        | some (_, r7) => boundaryAfterDigit r7
        | none => false)

/-- Strict pattern 10: full ISO datetime with a literal `T` (note: the
input is lower-cased first, so this pattern never fires; kept faithful). -/
def matchIsoTAt (prev : Option Char) (s : Str) : Bool :=
  atBoundary prev s &&
  (match takeDigitsExactly 4 s with
   | some (_, r1) =>
     (match r1 with
      | '-' :: r2 =>
        (match takeDigitsExactly 2 r2 with
         | some (_, r3) =>
           (match r3 with
            | '-' :: r4 =>
              (match takeDigitsExactly 2 r4 with
               | some (_, r5) =>
                 (match r5 with
                  | 'T' :: r6 =>
                    (match takeDigitsExactly 2 r6 with
                     | some (_, r7) =>
                       (match r7 with
                        | ':' :: r8 =>
                          (match takeDigitsExactly 2 r8 with
                           | some (_, r9) =>
                             (match r9 with
                              | ':' :: r10 => (takeDigitsExactly 2 r10).isSome
                              | _ => false)
                           | none => false)
                        | _ => false)
                     | none => false)
                  | _ => false)
               | none => false)
            | _ => false)
         | none => false)
      | _ => false)
   | none => false)

/-- Strict pattern 11: publish-marker word, `\s*:?\s*`, then a digit. -/
def matchPublishedAt (prev : Option Char) (s : Str) : Bool :=
  atBoundary prev s &&
  ((altWordRests PUBLISHED_WORDS s).any fun r1 =>
    match skipSpacesColonSpaces r1 with
    | c :: _ => c.isDigit
    | [] => false)

/-- The year pattern of the relaxed check: `(19|20)` then two digits, in
word boundaries. -/
def matchYearAt (prev : Option Char) (s : Str) : Bool :=
  atBoundary prev s &&
  (match s with
   | a :: b :: c :: d :: r =>
     ((a = '1' && b = '9') || (a = '2' && b = '0')) && c.isDigit && d.isDigit
       && boundaryAfterDigit r
   | _ => false)

/-- The `strict_patterns` loop of `is_likely_date_text`. -/
def strictPatternHit (tl : Str) : Bool :=
  searchBool matchSlashDateAt none tl ||
  searchBool matchYmdAt none tl ||
  searchBool (matchDayMonthYearEnAt MONTHS_EN_FULL) none tl ||
  searchBool (matchDayMonthYearArAt MONTHS_AR_HAMZA) none tl ||
  searchBool (matchDayMonthYearEnAt MONTHS_ES_FULL) none tl ||
  searchBool matchClockAt none tl ||
  searchBool matchAmPmAt none tl ||
  searchBool matchWeekdayEnAt none tl ||
  searchBool matchWeekdayArAt none tl ||
  searchBool matchIsoTAt none tl ||
  searchBool matchPublishedAt none tl

/-- `is_likely_date_text(text)`: length gates, the strict patterns over the
lower-cased stripped text, then the relaxed short-text check (a 19xx/20xx
year in the original text plus a month/weekday word in the lowered text). -/
def is_likely_date_text (text : Str) : Bool :=
  if text.isEmpty || text.length < 3 then false
  else
    let text_lower := pyStrip (pyLower text)
    if 150 < text.length then false
    else if strictPatternHit text_lower then true
    else if text.length ≤ 50 then
      if !(searchBool matchYearAt none text) then false
      else DATE_WORDS_RELAXED.any (fun w => strIn w text_lower)
    else false

/-- The month group `(0[1-9]|1[0-2])` of the tier-3 numeric date regex. -/
def month2Rest (s : Str) : Option Str :=
  match s with
  | a :: b :: r =>
    if (a = '0' && '1' ≤ b && b ≤ '9') || (a = '1' && '0' ≤ b && b ≤ '2') then
      some r
    else none
  | _ => none

/-- The day group `(0[1-9]|[12][0-9]|3[01])` of the tier-3 numeric date
regex. -/
def day2Rest (s : Str) : Option Str :=
  match s with
  | a :: b :: r =>
    if (a = '0' && '1' ≤ b && b ≤ '9') || ((a = '1' || a = '2') && b.isDigit)
        || (a = '3' && (b = '0' || b = '1')) then
      some r
    else none
  | _ => none

/-- The tier-3 `numeric_date_pattern` (line 835) anchored at a position:
`(19|20)` year, separator, strict month, separator, strict day, in word
boundaries. -/
def matchNumericDateAt (prev : Option Char) (s : Str) : Bool :=
  atBoundary prev s &&
  (match s with
   | a :: b :: rest =>
     if (a = '1' && b = '9') || (a = '2' && b = '0') then
       match takeDigitsExactly 2 rest with
       | some (_, r1) =>
         (match takeSep ['-', '/', '.'] r1 with
          | some (_, r2) =>
            (match month2Rest r2 with
             | some r3 =>
               (match takeSep ['-', '/', '.'] r3 with
                | some (_, r4) =>
                  (match day2Rest r4 with
                   | some r5 => boundaryAfterDigit r5
                   | none => false)
                | none => false)
             | none => false)
          | none => false)
       | none => false
     else false
   | _ => false)

/-- `numeric_date_pattern.search(tag_text)` as a boolean. -/
def numericDateHit (s : Str) : Bool := searchBool matchNumericDateAt none s

/-- `re.findall` of the embedded-ISO pattern (line 866): non-overlapping
leftmost matches, resuming after each match. -/
def findAllEmbeddedIsoAux : Option Char → Str → Nat → List Str
  | _, _, 0 => []
  | prev, s, fuel + 1 =>
    match s with
    | [] => []
    | c :: t =>
      match matchIsoAt ['-'] prev s with
      | some (matched, _) =>
        matched :: findAllEmbeddedIsoAux matched.getLast? (s.drop matched.length) fuel
      | none => findAllEmbeddedIsoAux (some c) t fuel

/-- All embedded ISO dates of a long candidate text. -/
def findAllEmbeddedIso (s : Str) : List Str :=
  findAllEmbeddedIsoAux none s (s.length + 1)

/-! ## Tier-3 candidate construction and scoring (lines 816-987).
A DOM element is modelled by the data the source reads from the external
parser: its tag, attributes, raw text, canonical path (for DOM distance),
and whether the `getParent` walk meets a penalty node. -/

/-- A DOM element as seen through the parser interface. -/
structure Elem where
  tag : String
  attrs : List (String × String)
  textRaw : Str
  path : Option (List String)
  inPenaltyZone : Bool
  deriving DecidableEq

/-- `parser.getAttribute(node, name)`. -/
def getAttr (e : Elem) (name : String) : Option String := e.attrs.lookup name

/-- The module-level multi-language `PUBLICATION_KEYWORDS` (lines 96-145). -/
def PUBLICATION_KEYWORDS_module : List Str :=
  (["published", "publication", "posted on", "updated", "last updated",
    "authored", "written by", "on:", "at:", "date:", "by:",
    "نشر في", "تاريخ النشر", "تحديث", "مشاركة", "بتاريخ",
    "publicado", "actualizado", "fecha",
    "publié le", "mise à jour", "date de publication",
    "veröffentlicht", "aktualisiert", "datum",
    "publicado em", "atualizado em",
    "pubblicato il", "aggiornato il",
    "опубликовано", "обновлено", "дата",
    "yayınlanma", "güncellenme", "tarih",
    "gepubliceerd op", "bijgewerkt op",
    "publicerad", "uppdaterad",
    "publisert", "oppdatert",
    "udgivet", "opdateret",
    "julkaistu", "päivitetty",
    "公開日", "更新日",
    "发布日期", "更新日期", "发表于"]).map String.data

/-- The function-local `PUBLICATION_KEYWORDS` of `get_publishing_date`
(line 819), which shadows the module-level list inside the tier-3 scoring. -/
def PUBLICATION_KEYWORDS_local : List Str :=
  (["published", "posted", "created", "date", "time", "updated",
    "modified"]).map String.data

/-- The attribute keywords of `has_date_attributes` (line 853). -/
def DATE_ATTR_KEYWORDS : List Str :=
  (["date", "time", "publish", "created", "updated",
    "data-publishdate"]).map String.data

/-- The class-scoring substrings (line 937). -/
def CLASS_SCORE_KEYWORDS : List Str :=
  (["publish", "timestamp", "date", "entry-date", "post-date",
    "time"]).map String.data

/-- The id-scoring substrings (line 942). -/
def ID_SCORE_KEYWORDS : List Str :=
  (["publish", "date", "time", "created", "updated"]).map String.data

/-- `has_date_attributes`: any attribute keyword inside
`(tag_class + ' ' + tag_id).lower()`. -/
def hasDateAttributes (tag_class tag_id : Str) : Bool :=
  DATE_ATTR_KEYWORDS.any fun kw => strIn kw (pyLower (tag_class ++ ' ' :: tag_id))

/-- The `+100` keyword component (line 932): any keyword of the
function-local list inside `tag_text.lower()`. -/
def pubKeywordHit (tag_text : Str) : Bool :=
  PUBLICATION_KEYWORDS_local.any fun kw => strIn kw (pyLower tag_text)

/-- The distance-based component of the normal scoring path (lines
917-929): proximity against the mapped top node, weighted by
`int(p * 0.3)` in binary64 when the element has no date attributes, added
only when positive. -/
def proximityComponent (mappedTop : Option (List String))
    (path : Option (List String)) (has_attrs : Bool) : Int :=
  match mappedTop with
  | none => 0
  | some _ =>
    let p := calculate_proximity_score path mappedTop 10
    let p := if !has_attrs then pyInt (fmulNat p.toNat lit03) else p
    if 0 < p then p else 0

/-- The length component of the tier-3 scoring (lines 909-914): `+40` for
at most 30 characters, `+20` for at most 50. -/
def lengthBonus (tag_text : Str) : Int :=
  if tag_text.length ≤ 30 then 40 else if tag_text.length ≤ 50 then 20 else 0

/-- The additive score of a normal tier-3 candidate (lines 900-962). -/
def scoreCandidate (mappedTop : Option (List String)) (e : Elem) : Int :=
  let tag_text := pyStrip e.textRaw
  let tag_class := ((getAttr e ("class")).getD "").data
  let tag_id := ((getAttr e ("id")).getD "").data
  let has_date_attributes := hasDateAttributes tag_class tag_id
  let s1 : Int := if has_date_attributes then 50 else 0
  let s2 : Int := lengthBonus tag_text
  let s3 : Int := proximityComponent mappedTop e.path has_date_attributes
  let s4 : Int := if pubKeywordHit tag_text then 100 else 0
  let s5 : Int :=
    if CLASS_SCORE_KEYWORDS.any (fun kw => strIn kw (pyLower tag_class)) then 80
    else 0
  let s6 : Int :=
    if ID_SCORE_KEYWORDS.any (fun kw => strIn kw (pyLower tag_id)) then 120
    else 0
  let s7 : Int := if e.tag = "time" then 60 else 0
  let s8 : Int := if e.inPenaltyZone then -20 else 0
  s1 + s2 + s3 + s4 + s5 + s6 + s7 + s8

/-- The score of a virtual embedded-ISO candidate (lines 869-895):
`int(p * 0.7)`-weighted proximity when positive, plus 80. -/
def embeddedScore (mappedTop : Option (List String))
    (path : Option (List String)) : Int :=
  (match mappedTop with
   | none => 0
   | some _ =>
     let p := calculate_proximity_score path mappedTop 10
     let p := pyInt (fmulNat p.toNat lit07)
     if 0 < p then p else 0) + 80

/-- A tier-3 candidate. -/
structure Cand where
  score : Int
  text : Str
  tag : Elem
  deriving DecidableEq

/-- The candidates contributed by one element of the tier-3 tag scan
(lines 843-963): the length/date-likeness filters, then either the
virtual embedded-ISO candidates (long text without date attributes) or one
normally scored candidate. -/
def candidatesForTag (mappedTop : Option (List String)) (e : Elem) : List Cand :=
  let tag_text := pyStrip e.textRaw
  if tag_text.isEmpty || tag_text.length < 6 || 200 < tag_text.length then []
  else
    let tag_class := ((getAttr e ("class")).getD "").data
    let tag_id := ((getAttr e ("id")).getD "").data
    let has_date_attributes := hasDateAttributes tag_class tag_id
    let is_date_like := contains_month dateFinderRoot tag_text
      || numericDateHit tag_text || is_likely_date_text tag_text
    if !(is_date_like || has_date_attributes) then []
    else if 100 < tag_text.length && !has_date_attributes then
      (findAllEmbeddedIso tag_text).map fun iso_date =>
        { score := embeddedScore mappedTop e.path, text := iso_date, tag := e }
    else
      [{ score := scoreCandidate mappedTop e, text := tag_text, tag := e }]

/-- Stable insertion into a descending-by-score list (a stable sort agrees
with Python's stable `list.sort(key=score, reverse=True)`). -/
def insertCandDesc (c : Cand) : List Cand → List Cand
  | [] => [c]
  | d :: ds => if d.score ≤ c.score then c :: d :: ds else d :: insertCandDesc c ds

/-- `candidates.sort(key=lambda x: x['score'], reverse=True)` (stable). -/
def sortCandsDesc : List Cand → List Cand
  | [] => []
  | c :: cs => insertCandDesc c (sortCandsDesc cs)

/-- The final loop of tier 3 (lines 976-984): skip candidates with score
below −30, parse the rest in order, return the first valid instant. -/
def tryParseCandidates (env : ParseEnv) (now : Int) : List Cand → Option Int
  | [] => none
  | c :: rest =>
    if c.score < -30 then tryParseCandidates env now rest
    else
      match parse_and_validate env now c.text true false with
      | some dt => some dt
      | none => tryParseCandidates env now rest

/-- The same loop without the skip branch; used to state that the skip is
unreachable. -/
def tryParseAll (env : ParseEnv) (now : Int) : List Cand → Option Int
  | [] => none
  | c :: rest =>
    match parse_and_validate env now c.text true false with
    | some dt => some dt
    | none => tryParseAll env now rest

/-! ## `get_publishing_date` (lines 381-987).  The document is modelled by
the answers the external parser gives to the queries the source makes;
`urlMatch` is the result of `re.search(urls.STRICT_DATE_REGEX, url)`
(`urls` is not part of the source file: modelled from the spec as an
opaque matched string), and `mappedTop` is the path of the
`find_corresponding_node` result (cross-document XPath remapping done by
the external lxml trees). -/

/-- A parsed document as seen through the queries of
`get_publishing_date`. -/
structure DocModel where
  urlMatch : Option Str
  byAttr : String → String → List Elem
  timeTags : List Elem
  heurTags : List Elem
  mappedTop : Option (List String)

/-- The ordered `PUBLISH_DATE_TAGS` list (lines 770-792). -/
def PUBLISH_DATE_TAGS : List (String × String) :=
  [("property", "article:published_time"),
   ("itemprop", "datePublished"),
   ("name", "pubdate"),
   ("pubdate", "pubdate"),
   ("name", "published_time"),
   ("name", "publish_date"),
   ("property", "og:published_time"),
   ("name", "date"),
   ("name", "Date"),
   ("name", "DC.date.issued"),
   ("name", "dcterms.created"),
   ("name", "OriginalPublicationDate"),
   ("name", "sailthru.date"),
   ("name", "article_date_original"),
   ("name", "publication_date"),
   ("name", "PublishDate"),
   ("name", "datePublished"),
   ("property", "rnews:datePublished"),
   ("name", "datePublished"),
   ("span", "data-publishdate")]

/-- Tier 2: the metadata-tag loop (lines 793-803): first tag whose content
parses and validates wins. -/
def metaTier (env : ParseEnv) (now : Int) (doc : DocModel) : Option Int :=
  PUBLISH_DATE_TAGS.findSome? fun ti =>
    let content_key := if ti.2 = "datePublished" then "datetime" else "content"
    match doc.byAttr ti.1 ti.2 with
    | [] => none
    | mt :: _ =>
      match getAttr mt content_key with
      | none => none
      | some date_content =>
        if date_content.isEmpty then none
        else parse_and_validate env now date_content.data false false

/-- Tier 2b: the `<time datetime=...>` loop (lines 805-813). -/
def timeTier (env : ParseEnv) (now : Int) (doc : DocModel) : Option Int :=
  doc.timeTags.findSome? fun tt =>
    match getAttr tt ("datetime") with
    | none => none
    | some attr =>
      if attr.isEmpty then none
      else parse_and_validate env now attr.data false false

/-- Tier 3: candidate collection, stable descending sort, and the parse
loop (lines 816-987). -/
def tier3 (env : ParseEnv) (now : Int) (doc : DocModel) : Option Int :=
  let candidates := doc.heurTags.flatMap (candidatesForTag doc.mappedTop)
  if candidates.isEmpty then none
  else tryParseCandidates env now (sortCandsDesc candidates)

/-- `get_publishing_date(url, original_doc, top_node, source_doc)`:
URL tier, then metadata tags, then `<time>`, then the scored heuristic. -/
def get_publishing_date (env : ParseEnv) (now : Int) (doc : DocModel) :
    Option Int :=
  let tier1 : Option Int :=
    match doc.urlMatch with
    | some m => parse_and_validate env now m false true
    | none => none
  match tier1 with
  | some dt => some dt
  | none =>
    match metaTier env now doc with
    | some dt => some dt
    | none =>
      match timeTier env now doc with
      | some dt => some dt
      | none => tier3 env now doc

/-- C2: the tiers run in the fixed order URL, metadata tags, `<time>`,
heuristic, and the first valid instant wins: a validated URL date is
returned whatever the metadata says; a first valid metadata date is
returned when the URL tier fails; a valid `<time>` date is returned when
URL and metadata fail; and the heuristic runs only when all three fail. -/
theorem get_publishing_date_tier_order :
    (∀ (env : ParseEnv) (now : Int) (doc : DocModel) (m : Str) (t : Int),
      doc.urlMatch = some m → parse_and_validate env now m false true = some t →
      get_publishing_date env now doc = some t) ∧
    (∀ (env : ParseEnv) (now : Int) (doc : DocModel) (t : Int),
      (match doc.urlMatch with
       | some m => parse_and_validate env now m false true
       | none => none) = none →
      metaTier env now doc = some t →
      get_publishing_date env now doc = some t) ∧
    (∀ (env : ParseEnv) (now : Int) (doc : DocModel) (t : Int),
      (match doc.urlMatch with
       | some m => parse_and_validate env now m false true
       | none => none) = none →
      metaTier env now doc = none → timeTier env now doc = some t →
      get_publishing_date env now doc = some t) ∧
    (∀ (env : ParseEnv) (now : Int) (doc : DocModel),
      (match doc.urlMatch with
       | some m => parse_and_validate env now m false true
       | none => none) = none →
      metaTier env now doc = none → timeTier env now doc = none →
      get_publishing_date env now doc = tier3 env now doc) := by
  refine ⟨?_, ?_, ?_, ?_⟩
  · intro env now doc m t hm hpv
    unfold get_publishing_date
    rw [hm]
    dsimp only
    rw [hpv]
  · intro env now doc t hurl hmeta
    unfold get_publishing_date
    dsimp only
    rw [hurl, hmeta]
  · intro env now doc t hurl hmeta htime
    unfold get_publishing_date
    dsimp only
    rw [hurl, hmeta, htime]
  · intro env now doc hurl hmeta htime
    unfold get_publishing_date
    dsimp only
    rw [hurl, hmeta, htime]

/-- The meta element of the C2 witness document. -/
def c2meta : Elem :=
  { tag := "meta", attrs := [("content", "2024-03-20T10:00:00Z")],
    textRaw := [], path := none, inPenaltyZone := false }

/-- The C2 witness document: the URL carries `2024/03/15` while an
`article:published_time` meta tag carries a different date. -/
def c2doc : DocModel :=
  { urlMatch := some (("2024/03/15").data),
    byAttr := fun a v =>
      if a = "property" && v = "article:published_time" then [c2meta] else [],
    timeTags := [], heurTags := [], mappedTop := none }

/-- Witness for C2: on `c2doc` the URL-tier date 2024-03-15 is returned
even though the `article:published_time` meta tag carries 2024-03-20. -/
theorem get_publishing_date_tier_order_witness :
    get_publishing_date noneEnv 0 c2doc = some 63846057600 :=
  get_publishing_date_tier_order.1 noneEnv 0 c2doc (("2024/03/15").data)
    63846057600 rfl (by decide)

/-- A tier-3 element whose text carries the Spanish keyword `publicado`
from the module-level multi-language list. -/
def c3elemKw : Elem :=
  { tag := "div", attrs := [], textRaw := ("publicado hoy aqui").data,
    path := none, inPenaltyZone := false }

/-- The same element with the keyword removed. -/
def c3elemNoKw : Elem :=
  { tag := "div", attrs := [], textRaw := ("hola mundo aqui").data,
    path := none, inPenaltyZone := false }

/-- C3 counterexample: a candidate whose text contains the multi-language
publication keyword `publicado` scores exactly the same (40) as an
otherwise identical candidate without any keyword — no `+100` bonus is
applied, because the scoring reads the function-local seven-word English
list that shadows the module-level multi-language list. -/
theorem tier3_keyword_bonus_counterexample :
    (PUBLICATION_KEYWORDS_module.any fun kw =>
      strIn kw (pyLower (pyStrip c3elemKw.textRaw))) = true ∧
    scoreCandidate none c3elemKw = 40 ∧
    scoreCandidate none c3elemNoKw = 40 := by
  refine ⟨by decide, by decide, by decide⟩

/-- C3 (amended): the tier-3 `+100` keyword bonus fires exactly when the
lower-cased text contains one of the seven function-local keywords
`published, posted, created, date, time, updated, modified` (the local
list shadows the module-level multi-language list); in that case an
otherwise equal candidate scores exactly 100 more than one without a local
keyword. -/
theorem tier3_keyword_bonus_local :
    (∀ t : Str, pubKeywordHit t = true ↔
      ∃ kw ∈ PUBLICATION_KEYWORDS_local, strIn kw (pyLower t) = true) ∧
    (∀ (mt : Option (List String)) (e1 e2 : Elem),
      e1.tag = e2.tag → e1.attrs = e2.attrs → e1.path = e2.path →
      e1.inPenaltyZone = e2.inPenaltyZone →
      lengthBonus (pyStrip e1.textRaw) = lengthBonus (pyStrip e2.textRaw) →
      pubKeywordHit (pyStrip e1.textRaw) = true →
      pubKeywordHit (pyStrip e2.textRaw) = false →
      scoreCandidate mt e1 = scoreCandidate mt e2 + 100) := by
  constructor
  · intro t
    simp [pubKeywordHit, List.any_eq_true]
  · intro mt e1 e2 htag hattrs hpath hzone hlen hk1 hk2
    cases e1 with
    | mk tg1 at1 tx1 p1 z1 =>
      cases e2 with
      | mk tg2 at2 tx2 p2 z2 =>
        simp only at htag hattrs hpath hzone hlen hk1 hk2
        subst htag hattrs hpath hzone
        simp only [scoreCandidate, getAttr]
        dsimp only
        rw [hlen, hk1, hk2]
        simp only [if_true, Bool.false_eq_true, if_false]
        ring

/-- Witness for the amended C3 theorem at a concrete pair: text containing
the local keyword `updated` scores 140, text without scores 40. -/
theorem tier3_keyword_bonus_local_witness :
    scoreCandidate none
        ({ tag := "div", attrs := [], textRaw := ("updated hoy").data,
           path := none, inPenaltyZone := false } : Elem) =
      scoreCandidate none
        ({ tag := "div", attrs := [], textRaw := ("hola mundo").data,
           path := none, inPenaltyZone := false } : Elem) + 100 :=
  tier3_keyword_bonus_local.2 none
    { tag := "div", attrs := [], textRaw := ("updated hoy").data,
      path := none, inPenaltyZone := false }
    { tag := "div", attrs := [], textRaw := ("hola mundo").data,
      path := none, inPenaltyZone := false }
    rfl rfl rfl rfl (by decide) (by decide) (by decide)

/-! ## C9: score bounds and the unreachable skip branch -/

theorem calculate_proximity_score_nonneg (c r : Option (List String))
    (m : Nat) : 0 ≤ calculate_proximity_score c r m := by
  unfold calculate_proximity_score
  cases r with
  | none => simp
  | some p =>
    cases h : calculate_dom_distance c (some p) with
    | none => simp
    | some d =>
      by_cases hd : m ≤ d
      · simp [hd]
      · simp [hd, le_max_left]

theorem proximityComponent_nonneg (mt : Option (List String))
    (path : Option (List String)) (a : Bool) :
    0 ≤ proximityComponent mt path a := by
  unfold proximityComponent
  cases mt with
  | none => simp
  | some q =>
    dsimp only
    split_ifs <;> omega

theorem embeddedScore_ge (mt : Option (List String))
    (path : Option (List String)) : 80 ≤ embeddedScore mt path := by
  unfold embeddedScore
  cases mt with
  | none => simp
  | some q =>
    dsimp only
    split_ifs <;> omega

theorem scoreCandidate_ge_neg20 (mt : Option (List String)) (e : Elem) :
    -20 ≤ scoreCandidate mt e := by
  unfold scoreCandidate
  dsimp only
  have h3 := proximityComponent_nonneg mt e.path
    (hasDateAttributes (((getAttr e ("class")).getD "").data)
      (((getAttr e ("id")).getD "").data))
  have h2 : (0 : Int) ≤ lengthBonus (pyStrip e.textRaw) := by
    unfold lengthBonus
    split_ifs <;> omega
  split_ifs <;> omega

theorem candidatesForTag_score_ge (mt : Option (List String)) (e : Elem) :
    ∀ c ∈ candidatesForTag mt e, -20 ≤ c.score := by
  intro c hmem
  unfold candidatesForTag at hmem
  dsimp only at hmem
  split_ifs at hmem
  · simp at hmem
  · simp at hmem
  · rw [List.mem_map] at hmem
    obtain ⟨iso, _, rfl⟩ := hmem
    have := embeddedScore_ge mt e.path
    simp only
    omega
  · simp only [List.mem_singleton] at hmem
    subst hmem
    exact scoreCandidate_ge_neg20 mt e

theorem tryParse_no_skip (env : ParseEnv) (now : Int) :
    ∀ l : List Cand, (∀ c ∈ l, -20 ≤ c.score) →
      tryParseCandidates env now l = tryParseAll env now l := by
  intro l
  induction l with
  | nil => intro _; rfl
  | cons c rest ih =>
    intro h
    have hc : -20 ≤ c.score := h c (List.mem_cons_self c rest)
    have hskip : ¬ c.score < -30 := by omega
    unfold tryParseCandidates tryParseAll
    rw [if_neg hskip]
    cases parse_and_validate env now c.text true false with
    | some dt => rfl
    | none => exact ih (fun x hx => h x (List.mem_cons_of_mem c hx))

theorem insertCandDesc_perm (c : Cand) (l : List Cand) :
    List.Perm (insertCandDesc c l) (c :: l) := by
  induction l with
  | nil => rfl
  | cons d ds ih =>
    unfold insertCandDesc
    by_cases hd : d.score ≤ c.score
    · rw [if_pos hd]
    · rw [if_neg hd]
      exact List.Perm.trans (List.Perm.cons d ih) (List.Perm.swap c d ds)

theorem sortCandsDesc_perm (l : List Cand) : List.Perm (sortCandsDesc l) l := by
  induction l with
  | nil => rfl
  | cons c cs ih =>
    unfold sortCandsDesc
    exact List.Perm.trans (insertCandDesc_perm c (sortCandsDesc cs))
      (List.Perm.cons c ih)

theorem pairwise_insertCandDesc (c : Cand) (l : List Cand)
    (h : List.Pairwise (fun a b => b.score ≤ a.score) l) :
    List.Pairwise (fun a b => b.score ≤ a.score) (insertCandDesc c l) := by
  induction l with
  | nil => simp [insertCandDesc]
  | cons d ds ih =>
    rw [List.pairwise_cons] at h
    unfold insertCandDesc
    by_cases hd : d.score ≤ c.score
    · rw [if_pos hd]
      rw [List.pairwise_cons]
      constructor
      · intro x hx
        rcases List.mem_cons.mp hx with rfl | hx'
        · exact hd
        · exact le_trans (h.1 x hx') hd
      · rw [List.pairwise_cons]
        exact h
    · rw [if_neg hd]
      rw [List.pairwise_cons]
      constructor
      · intro x hx
        rcases List.mem_cons.mp ((insertCandDesc_perm c ds).mem_iff.mp hx) with
          rfl | hx'
        · omega
        · exact h.1 x hx'
      · exact ih h.2

theorem sortCandsDesc_sorted (l : List Cand) :
    List.Pairwise (fun a b => b.score ≤ a.score) (sortCandsDesc l) := by
  induction l with
  | nil => simp [sortCandsDesc]
  | cons c cs ih => exact pairwise_insertCandDesc c (sortCandsDesc cs) ih

/-- C9: every candidate built by the tier-3 heuristic has score at least
−20 (the only negative component is the single −20 penalty-zone
deduction); hence the branch skipping candidates with score below −30 is
unreachable — the parse loop behaves exactly like the loop without the
skip — and the loop attempts the candidates in descending score order
(the stable sort is a permutation sorted by descending score). -/
theorem tier3_scores_bounded_no_skip :
    (∀ (mt : Option (List String)) (e : Elem) (c : Cand),
      c ∈ candidatesForTag mt e → -20 ≤ c.score) ∧
    (∀ (env : ParseEnv) (now : Int) (doc : DocModel),
      tryParseCandidates env now
          (sortCandsDesc (doc.heurTags.flatMap (candidatesForTag doc.mappedTop))) =
        tryParseAll env now
          (sortCandsDesc (doc.heurTags.flatMap (candidatesForTag doc.mappedTop)))) ∧
    (∀ l : List Cand,
      List.Pairwise (fun a b => b.score ≤ a.score) (sortCandsDesc l)) ∧
    (∀ l : List Cand, List.Perm (sortCandsDesc l) l) := by
  refine ⟨?_, ?_, sortCandsDesc_sorted, sortCandsDesc_perm⟩
  · intro mt e c hmem
    exact candidatesForTag_score_ge mt e c hmem
  · intro env now doc
    apply tryParse_no_skip
    intro c hc
    have hc' := (sortCandsDesc_perm _).mem_iff.mp hc
    rw [List.mem_flatMap] at hc'
    obtain ⟨e, _, hce⟩ := hc'
    exact candidatesForTag_score_ge doc.mappedTop e c hce

/-- The element of the C9 witness. -/
def c9elem : Elem :=
  { tag := "div", attrs := [], textRaw := ("15 march 2024").data,
    path := none, inPenaltyZone := false }

/-- The candidate the C9 witness element produces. -/
def c9cand : Cand :=
  { score := scoreCandidate none c9elem, text := pyStrip c9elem.textRaw,
    tag := c9elem }

/-- Witness for C9: the candidate built from `'15 march 2024'` is produced
by the tier-3 scan and its score is at least −20 (it is in fact 40). -/
theorem tier3_scores_bounded_no_skip_witness :
    c9cand ∈ candidatesForTag none c9elem ∧ -20 ≤ c9cand.score :=
  ⟨by decide, tier3_scores_bounded_no_skip.1 none c9elem c9cand (by decide)⟩

/-! ## `split_title` (lines 1127-1150) and the `get_title` selection
(lines 989-1124).  `utils.StringSplitter` and `utils.StringReplacement`
live in `utils.py`, which is not under `src/`; they are modelled from the
spec (§4.7): split on a literal separator (the splitters used are the
literal pipe and the literal ` - `), and replace every occurrence of a
literal pattern. -/

/-- Modelled from the spec: `utils.StringReplacement(pat, rep).replaceAll`
(`utils.py` is outside `src/`) — Python `str.replace`: substitute every
non-overlapping occurrence of `pat`, leftmost first. -/
def replaceAllAux (pat rep : Str) : Str → Nat → Str
  | s, 0 => s
  | [], _ + 1 => []
  | c :: t, fuel + 1 =>
    if !pat.isEmpty && pat.isPrefixOf (c :: t) then
      rep ++ replaceAllAux pat rep ((c :: t).drop pat.length) fuel
    else c :: replaceAllAux pat rep t fuel

/-- `s.replace(pat, rep)` (see `replaceAllAux`). -/
def pyReplace (pat rep s : Str) : Str := replaceAllAux pat rep s s.length

/-- Modelled from the spec: `utils.StringSplitter(pattern).split` for the
literal patterns used by `get_title` — split on each non-overlapping
leftmost occurrence of the separator. -/
def splitOnSepAux (sep : Str) : Str → Str → Nat → List Str
  | s, acc, 0 => [acc.reverse ++ s]
  | [], acc, _ + 1 => [acc.reverse]
  | c :: t, acc, fuel + 1 =>
    if sep.isPrefixOf (c :: t) then
      acc.reverse :: splitOnSepAux sep ((c :: t).drop sep.length) [] fuel
    else splitOnSepAux sep t (c :: acc) fuel

/-- `re.split(sep, s)` for a literal, nonempty separator. -/
def splitOnSep (sep s : Str) : List Str :=
  if sep.isEmpty then [s] else splitOnSepAux sep s [] (s.length + 1)

/-- `filter_regex.sub('', x)` with `filter_regex = [^a-zA-Z0-9 ]`. -/
def filterAlnumSpace (s : Str) : Str :=
  s.filter (fun c => c.isAlphanum || c = ' ')

/-- The hint test of the `split_title` loop on an already stripped piece:
a truthy filtered hint occurring in the filtered lower-cased piece. -/
def pieceMatch (hint cur : Str) : Bool :=
  !hint.isEmpty && strIn hint (pyLower (filterAlnumSpace cur))

/-- The index-selection loop of `split_title` (lines 1139-1146): break at
the first hint-matching piece, otherwise track the longest stripped
piece. -/
def bestPieceGo (hint : Str) : List Str → Nat → Nat → Nat → Nat
  | [], _, _, bi => bi
  | p :: ps, i, bl, bi =>
    let current := pyStrip p
    if pieceMatch hint current then i
    else if bl < current.length then bestPieceGo hint ps (i + 1) current.length i
    else bestPieceGo hint ps (i + 1) bl bi

/-- `split_title(title, splitter, hint)`: split, filter the hint, pick the
hint-matching or longest piece, apply the `&raquo;` replacement, strip. -/
def split_title (title sep hint : Str) : Str :=
  let title_pieces := splitOnSep sep title
  let hint' := if hint.isEmpty then hint else pyLower (filterAlnumSpace hint)
  let idx := bestPieceGo hint' title_pieces 0 0 0
  pyStrip (pyReplace (("&raquo;").data) (("»").data) (title_pieces.getD idx []))

theorem length_dropWhile_le (p : Char → Bool) (l : Str) :
    (l.dropWhile p).length ≤ l.length := by
  induction l with
  | nil => simp
  | cons c t ih =>
    rw [List.dropWhile_cons]
    split
    · exact le_trans ih (Nat.le_succ _)
    · simp

theorem pyStrip_length_le (s : Str) : (pyStrip s).length ≤ s.length := by
  unfold pyStrip
  rw [List.length_reverse]
  calc ((s.dropWhile isSpaceChar).reverse.dropWhile isSpaceChar).length
      ≤ (s.dropWhile isSpaceChar).reverse.length := length_dropWhile_le _ _
    _ = (s.dropWhile isSpaceChar).length := List.length_reverse _
    _ ≤ s.length := length_dropWhile_le _ _

theorem replaceAllAux_length_le (pat rep : Str) (hle : rep.length ≤ pat.length) :
    ∀ (fuel : Nat) (s : Str), (replaceAllAux pat rep s fuel).length ≤ s.length := by
  intro fuel
  induction fuel with
  | zero => intro s; simp [replaceAllAux]
  | succ fuel ih =>
    intro s
    cases s with
    | nil => simp [replaceAllAux]
    | cons c t =>
      unfold replaceAllAux
      by_cases hp : (!pat.isEmpty && pat.isPrefixOf (c :: t)) = true
      · rw [if_pos hp]
        rw [Bool.and_eq_true] at hp
        have hplen : pat.length ≤ (c :: t).length :=
          (List.isPrefixOf_iff_prefix.mp hp.2).length_le
        have := ih ((c :: t).drop pat.length)
        rw [List.length_append, List.length_drop] at *
        omega
      · rw [if_neg hp]
        have := ih t
        simp only [List.length_cons]
        omega

theorem splitOnSepAux_piece_le (sep : Str) :
    ∀ (fuel : Nat) (s acc : Str) (p : Str),
      p ∈ splitOnSepAux sep s acc fuel → p.length ≤ acc.length + s.length := by
  intro fuel
  induction fuel with
  | zero =>
    intro s acc p hp
    simp only [splitOnSepAux, List.mem_singleton] at hp
    subst hp
    simp
  | succ fuel ih =>
    intro s acc p hp
    cases s with
    | nil =>
      simp only [splitOnSepAux, List.mem_singleton] at hp
      subst hp
      simp
    | cons c t =>
      unfold splitOnSepAux at hp
      by_cases hpre : sep.isPrefixOf (c :: t) = true
      · rw [if_pos hpre] at hp
        rcases List.mem_cons.mp hp with rfl | hp'
        · simp
        · have := ih ((c :: t).drop sep.length) [] p hp'
          rw [List.length_drop] at this
          simp only [List.length_nil] at this
          omega
      · rw [if_neg hpre] at hp
        have := ih t (c :: acc) p hp
        simp only [List.length_cons] at *
        omega

theorem splitOnSep_piece_le (sep s : Str) (p : Str)
    (hp : p ∈ splitOnSep sep s) : p.length ≤ s.length := by
  unfold splitOnSep at hp
  by_cases he : sep.isEmpty = true
  · rw [if_pos he] at hp
    simp only [List.mem_singleton] at hp
    subst hp
    exact le_refl _
  · rw [if_neg he] at hp
    have := splitOnSepAux_piece_le sep (s.length + 1) s [] p hp
    simpa using this

theorem splitOnSepAux_ne_nil (sep : Str) :
    ∀ (fuel : Nat) (s acc : Str), splitOnSepAux sep s acc fuel ≠ [] := by
  intro fuel
  induction fuel with
  | zero => intro s acc; simp [splitOnSepAux]
  | succ fuel ih =>
    intro s acc
    cases s with
    | nil => simp [splitOnSepAux]
    | cons c t =>
      unfold splitOnSepAux
      by_cases hpre : sep.isPrefixOf (c :: t) = true
      · rw [if_pos hpre]; simp
      · rw [if_neg hpre]; exact ih t (c :: acc)

theorem splitOnSep_ne_nil (sep s : Str) : splitOnSep sep s ≠ [] := by
  unfold splitOnSep
  split
  · simp
  · exact splitOnSepAux_ne_nil sep (s.length + 1) s []

theorem bestPieceGo_range (hint : Str) :
    ∀ (ps : List Str) (i bl bi : Nat),
      bestPieceGo hint ps i bl bi = bi ∨
        (∃ j, j < ps.length ∧ bestPieceGo hint ps i bl bi = i + j) := by
  intro ps
  induction ps with
  | nil => intro i bl bi; left; rfl
  | cons p ps ih =>
    intro i bl bi
    unfold bestPieceGo
    by_cases hm : pieceMatch hint (pyStrip p) = true
    · rw [if_pos hm]
      right
      exact ⟨0, by simp, by omega⟩
    · rw [if_neg hm]
      by_cases hl : bl < (pyStrip p).length
      · rw [if_pos hl]
        rcases ih (i + 1) (pyStrip p).length i with h | ⟨j, hj, hr⟩
        · right; exact ⟨0, by simp, by omega⟩
        · right; exact ⟨j + 1, by simpa using hj, by omega⟩
      · rw [if_neg hl]
        rcases ih (i + 1) bl bi with h | ⟨j, hj, hr⟩
        · left; exact h
        · right; exact ⟨j + 1, by simpa using hj, by omega⟩

theorem bestPieceGo_findIdx (hint : Str) :
    ∀ (ps : List Str) (i bl bi : Nat),
      (∃ p ∈ ps, pieceMatch hint (pyStrip p) = true) →
      bestPieceGo hint ps i bl bi =
        i + ps.findIdx (fun p => pieceMatch hint (pyStrip p)) := by
  intro ps
  induction ps with
  | nil => intro i bl bi h; simp at h
  | cons p ps ih =>
    intro i bl bi h
    unfold bestPieceGo
    by_cases hm : pieceMatch hint (pyStrip p) = true
    · rw [if_pos hm, List.findIdx_cons, hm]
      simp
    · rw [if_neg hm, List.findIdx_cons]
      have hm' : pieceMatch hint (pyStrip p) = false := by
        simpa using hm
      rw [hm']
      simp only [cond_false]
      have hex : ∃ q ∈ ps, pieceMatch hint (pyStrip q) = true := by
        rcases h with ⟨q, hq, hmq⟩
        rcases List.mem_cons.mp hq with rfl | hq'
        · exact absurd hmq hm
        · exact ⟨q, hq', hmq⟩
      by_cases hl : bl < (pyStrip p).length
      · rw [if_pos hl, ih (i + 1) _ i hex]; omega
      · rw [if_neg hl, ih (i + 1) bl bi hex]; omega

theorem bestPieceGo_longest (hint : Str) :
    ∀ (ps : List Str) (i bl bi : Nat),
      (∀ p ∈ ps, pieceMatch hint (pyStrip p) = false) →
      (bestPieceGo hint ps i bl bi = bi ∧
        ∀ p ∈ ps, (pyStrip p).length ≤ bl) ∨
      (∃ j, j < ps.length ∧ bestPieceGo hint ps i bl bi = i + j ∧
        bl < (pyStrip (ps.getD j [])).length ∧
        ∀ p ∈ ps, (pyStrip p).length ≤ (pyStrip (ps.getD j [])).length) := by
  intro ps
  induction ps with
  | nil => intro i bl bi _; left; exact ⟨rfl, by simp⟩
  | cons p ps ih =>
    intro i bl bi hno
    have hmp : pieceMatch hint (pyStrip p) = false :=
      hno p (List.mem_cons_self p ps)
    have hno' : ∀ q ∈ ps, pieceMatch hint (pyStrip q) = false :=
      fun q hq => hno q (List.mem_cons_of_mem p hq)
    unfold bestPieceGo
    rw [if_neg (by simp [hmp])]
    by_cases hl : bl < (pyStrip p).length
    · rw [if_pos hl]
      rcases ih (i + 1) (pyStrip p).length i hno' with ⟨hr, hall⟩ | ⟨j, hj, hr, hgt, hall⟩
      · right
        refine ⟨0, by simp, by omega, ?_, ?_⟩
        · simpa using hl
        · intro q hq
          rcases List.mem_cons.mp hq with rfl | hq'
          · simp
          · simpa using hall q hq'
      · right
        refine ⟨j + 1, by simpa using hj, by omega, ?_, ?_⟩
        · simp only [List.getD_cons_succ]
          omega
        · intro q hq
          simp only [List.getD_cons_succ]
          rcases List.mem_cons.mp hq with rfl | hq'
          · omega
          · exact hall q hq'
    · rw [if_neg hl]
      rcases ih (i + 1) bl bi hno' with ⟨hr, hall⟩ | ⟨j, hj, hr, hgt, hall⟩
      · left
        refine ⟨hr, ?_⟩
        intro q hq
        rcases List.mem_cons.mp hq with rfl | hq'
        · omega
        · exact hall q hq'
      · right
        refine ⟨j + 1, by simpa using hj, by omega, ?_, ?_⟩
        · simp only [List.getD_cons_succ]
          omega
        · intro q hq
          simp only [List.getD_cons_succ]
          rcases List.mem_cons.mp hq with rfl | hq'
          · omega
          · exact hall q hq'

theorem getD_mem_of_lt {l : List Str} {j : Nat} (hj : j < l.length) :
    l.getD j [] ∈ l := by
  rw [List.getD_eq_getElem?_getD, List.getElem?_eq_getElem hj]
  exact List.getElem_mem hj

/-- C7: `split_title` returns a string no longer than its input; the
result is one piece of the split with the `&raquo;` replacement applied
and whitespace stripped; when the filtered hint occurs in some piece, the
first such piece is chosen; otherwise a piece of maximal stripped length
is chosen. -/
theorem split_title_spec (title sep hint : Str) (hsep : sep.isEmpty = false) :
    ((split_title title sep hint).length ≤ title.length) ∧
    (∃ p ∈ splitOnSep sep title,
      split_title title sep hint =
        pyStrip (pyReplace (("&raquo;").data) (("»").data) p)) ∧
    (∀ hint', hint' = (if hint.isEmpty then hint
        else pyLower (filterAlnumSpace hint)) →
      ((∃ p ∈ splitOnSep sep title, pieceMatch hint' (pyStrip p) = true) →
        split_title title sep hint =
          pyStrip (pyReplace (("&raquo;").data) (("»").data)
            ((splitOnSep sep title).getD
              ((splitOnSep sep title).findIdx
                (fun p => pieceMatch hint' (pyStrip p))) []))) ∧
      ((∀ p ∈ splitOnSep sep title, pieceMatch hint' (pyStrip p) = false) →
        ∃ p ∈ splitOnSep sep title,
          split_title title sep hint =
            pyStrip (pyReplace (("&raquo;").data) (("»").data) p) ∧
          ∀ q ∈ splitOnSep sep title,
            (pyStrip q).length ≤ (pyStrip p).length)) := by
  have hpiece : ∀ j, (splitOnSep sep title).getD j [] ∈ splitOnSep sep title ∨
      (splitOnSep sep title).getD j [] = [] := by
    intro j
    by_cases hj : j < (splitOnSep sep title).length
    · left; exact getD_mem_of_lt hj
    · right
      rw [List.getD_eq_getElem?_getD, List.getElem?_eq_none (by omega)]
      rfl
  have hchosen : ∀ j, (splitOnSep sep title).getD j [] ∈ splitOnSep sep title →
      (pyStrip (pyReplace (("&raquo;").data) (("»").data)
        ((splitOnSep sep title).getD j []))).length ≤ title.length := by
    intro j hmem
    calc (pyStrip (pyReplace (("&raquo;").data) (("»").data)
            ((splitOnSep sep title).getD j []))).length
        ≤ (pyReplace (("&raquo;").data) (("»").data)
            ((splitOnSep sep title).getD j [])).length := pyStrip_length_le _
      _ ≤ ((splitOnSep sep title).getD j []).length :=
          replaceAllAux_length_le _ _ (by decide) _ _
      _ ≤ title.length := splitOnSep_piece_le sep title _ hmem
  refine ⟨?_, ?_, ?_⟩
  · unfold split_title
    dsimp only
    rcases hpiece (bestPieceGo (if hint.isEmpty then hint
        else pyLower (filterAlnumSpace hint)) (splitOnSep sep title) 0 0 0) with
      hmem | hnil
    · exact hchosen _ hmem
    · rw [hnil]
      simp [pyReplace, replaceAllAux, pyStrip]
  · unfold split_title
    dsimp only
    set hint' := if hint.isEmpty then hint else pyLower (filterAlnumSpace hint)
    set idx := bestPieceGo hint' (splitOnSep sep title) 0 0 0 with hidx
    have hlt : idx < (splitOnSep sep title).length := by
      rcases bestPieceGo_range hint' (splitOnSep sep title) 0 0 0 with h0 | ⟨j, hj, hr⟩
      · rw [hidx, h0]
        rcases List.exists_cons_of_ne_nil (splitOnSep_ne_nil sep title) with ⟨a, l, hl⟩
        rw [hl]
        simp
      · rw [hidx, hr]
        omega
    exact ⟨_, getD_mem_of_lt hlt, rfl⟩
  · intro hint' hh
    constructor
    · intro hex
      unfold split_title
      dsimp only
      rw [← hh, bestPieceGo_findIdx hint' _ 0 0 0 hex]
      simp
    · intro hall
      unfold split_title
      dsimp only
      rw [← hh]
      rcases bestPieceGo_longest hint' (splitOnSep sep title) 0 0 0 hall with
        ⟨hr, hlen⟩ | ⟨j, hj, hr, _, hlen⟩
      · rcases List.exists_cons_of_ne_nil (splitOnSep_ne_nil sep title) with ⟨a, l, hl⟩
        refine ⟨(splitOnSep sep title).getD 0 [], ?_, ?_, ?_⟩
        · rw [hl]; simp
        · rw [hr]
        · intro q hq
          have := hlen q hq
          omega
      · refine ⟨(splitOnSep sep title).getD j [], getD_mem_of_lt hj, ?_, hlen⟩
        rw [hr]
        simp

/-- Witness for C7 at a concrete input: splitting
`'Real Headline | Site'` on the pipe with hint `'Real Headline'` returns
the stripped first piece, no longer than the input. -/
theorem split_title_spec_witness :
    (split_title (("Real Headline | Site").data) (['|'])
        (("Real Headline").data)).length ≤ (("Real Headline | Site").data).length ∧
    split_title (("Real Headline | Site").data) (['|'])
        (("Real Headline").data) = ("Real Headline").data :=
  ⟨(split_title_spec (("Real Headline | Site").data) (['|'])
      (("Real Headline").data) (by decide)).1, by decide⟩

/-! ## The selection stage of `get_title` (lines 1082-1124): best-scored
heuristic candidate against a strict threshold of 70, then the weighted
comparison of the heuristic, `og:title` and `<title>` options. -/

/-- A scored title candidate (score and text of the heuristic scan). -/
structure TCand where
  score : Int
  text : Str
  deriving DecidableEq

/-- Stable insertion into a descending-by-score candidate list. -/
def insertTCandDesc (c : TCand) : List TCand → List TCand
  | [] => [c]
  | d :: ds => if d.score ≤ c.score then c :: d :: ds else d :: insertTCandDesc c ds

/-- `candidates.sort(key=lambda x: x['score'], reverse=True)` (stable). -/
def sortTCandsDesc : List TCand → List TCand
  | [] => []
  | c :: cs => insertTCandDesc c (sortTCandsDesc cs)

/-- `title_h_candidate`: the best-scored candidate's text iff its score is
strictly above 70, else the empty string (lines 1082-1090). -/
def pickHeuristic (cands : List TCand) : Str :=
  match sortTCandsDesc cands with
  | [] => []
  | best :: _ => if 70 < best.score then best.text else []

/-- One entry of the `options` list: text and priority weight (a float). -/
structure TOption where
  text : Str
  weight : F64
  deriving DecidableEq

/-- `option['score'] * len(option['text'])`: float times exactly converted
integer, rounded. -/
def optionScore (o : TOption) : F64 := flq (o.weight.num * o.text.length) o.weight.den

/-- The comparison loop over `options` (lines 1099-1107): skip falsy
texts, keep the strictly best score, earlier option wins ties.  The
initial `highest_score = -1` is modelled by `none` (every option score is
a nonnegative float, hence above −1). -/
def chooseBest : List TOption → Option TOption → Option TOption
  | [], best => best
  | o :: rest, best =>
    if o.text.isEmpty then chooseBest rest best
    else
      let better : Bool :=
        match best with
        | none => true
        | some b => fltF (optionScore b) (optionScore o)
      if better then chooseBest rest (some o) else chooseBest rest best

/-- The three options of `get_title` in source order: heuristic (weight
1.0), `og:title` (weight 0.9), `<title>` (weight 0.5). -/
def titleOptions (title_h title_og title_text : Str) : List TOption :=
  [{ text := title_h, weight := ⟨1, 1⟩ },
   { text := title_og, weight := lit09 },
   { text := title_text, weight := flq 1 2 }]

/-- The chosen pre-cleanup title (`best_option`, lines 1092-1113): the
winning option's text, or the empty string when every option is falsy. -/
def titleChoice (cands : List TCand) (title_og title_text : Str) : Str :=
  match chooseBest (titleOptions (pickHeuristic cands) title_og title_text) none with
  | some o => o.text
  | none => []

/-- The cleanup stage of `get_title` (lines 1116-1124): pipe split, else
dash split, then the `&#65533;` replacement and strip. -/
def get_title_post (final_title title_h title_og : Str) : Str :=
  let final :=
    if strIn (['|']) final_title then
      split_title final_title (['|'])
        (if !title_h.isEmpty then title_h else title_og)
    else if strIn ((" - ").data) final_title then
      split_title final_title ((" - ").data)
        (if !title_h.isEmpty then title_h else title_og)
    else final_title
  pyStrip (pyReplace (("&#65533;").data) [] final)

/-- `get_title` from the scored candidate list and the two metadata
baselines: selection then cleanup. -/
def get_title (cands : List TCand) (title_og title_text : Str) : Str :=
  get_title_post (titleChoice cands title_og title_text)
    (pickHeuristic cands) title_og

theorem insertTCandDesc_perm (c : TCand) (l : List TCand) :
    List.Perm (insertTCandDesc c l) (c :: l) := by
  induction l with
  | nil => rfl
  | cons d ds ih =>
    unfold insertTCandDesc
    by_cases hd : d.score ≤ c.score
    · rw [if_pos hd]
    · rw [if_neg hd]
      exact List.Perm.trans (List.Perm.cons d ih) (List.Perm.swap c d ds)

theorem sortTCandsDesc_perm (l : List TCand) : List.Perm (sortTCandsDesc l) l := by
  induction l with
  | nil => rfl
  | cons c cs ih =>
    exact List.Perm.trans (insertTCandDesc_perm c (sortTCandsDesc cs))
      (List.Perm.cons c ih)

theorem pairwise_insertTCandDesc (c : TCand) (l : List TCand)
    (h : List.Pairwise (fun a b => b.score ≤ a.score) l) :
    List.Pairwise (fun a b => b.score ≤ a.score) (insertTCandDesc c l) := by
  induction l with
  | nil => simp [insertTCandDesc]
  | cons d ds ih =>
    rw [List.pairwise_cons] at h
    unfold insertTCandDesc
    by_cases hd : d.score ≤ c.score
    · rw [if_pos hd, List.pairwise_cons]
      constructor
      · intro x hx
        rcases List.mem_cons.mp hx with rfl | hx'
        · exact hd
        · exact le_trans (h.1 x hx') hd
      · rw [List.pairwise_cons]
        exact h
    · rw [if_neg hd, List.pairwise_cons]
      constructor
      · intro x hx
        rcases List.mem_cons.mp ((insertTCandDesc_perm c ds).mem_iff.mp hx) with
          rfl | hx'
        · omega
        · exact h.1 x hx'
      · exact ih h.2

theorem sortTCandsDesc_sorted (l : List TCand) :
    List.Pairwise (fun a b => b.score ≤ a.score) (sortTCandsDesc l) := by
  induction l with
  | nil => simp [sortTCandsDesc]
  | cons c cs ih => exact pairwise_insertTCandDesc c (sortTCandsDesc cs) ih

/-- The exact rational value of a float. -/
def F64.val (x : F64) : ℚ := (x.num : ℚ) / (x.den : ℚ)

theorem flq_den_pos (a b : Nat) : 0 < (flq a b).den := by
  unfold flq roundPosF
  dsimp only
  split_ifs <;> simp

theorem fltF_iff_val {x y : F64} (hx : 0 < x.den) (hy : 0 < y.den) :
    fltF x y = true ↔ x.val < y.val := by
  unfold fltF F64.val
  rw [div_lt_div_iff (by exact_mod_cast hx) (by exact_mod_cast hy)]
  rw [decide_eq_true_eq]
  constructor
  · intro h; exact_mod_cast h
  · intro h; exact_mod_cast h

theorem optionScore_den_pos (o : TOption) : 0 < (optionScore o).den :=
  flq_den_pos _ _

theorem chooseBest_spec (opts : List TOption) : ∀ (acc : Option TOption),
    (match chooseBest opts acc with
     | none => acc = none ∧ ∀ o ∈ opts, o.text = []
     | some b => (acc = some b ∨ (b ∈ opts ∧ b.text ≠ [])) ∧
         (∀ o ∈ opts, o.text ≠ [] →
           ¬ (optionScore b).val < (optionScore o).val) ∧
         (∀ a, acc = some a →
           ¬ (optionScore b).val < (optionScore a).val)) := by
  induction opts with
  | nil =>
    intro acc
    cases acc with
    | none => exact ⟨rfl, by simp⟩
    | some a =>
      refine ⟨Or.inl rfl, by simp, ?_⟩
      intro a' ha'
      cases ha'
      exact lt_irrefl _
  | cons o rest ih =>
    intro acc
    unfold chooseBest
    by_cases he : o.text.isEmpty = true
    · rw [if_pos he]
      have hoe : o.text = [] := by
        cases ht : o.text
        · rfl
        · rw [ht] at he; simp [List.isEmpty] at he
      have := ih acc
      cases hcb : chooseBest rest acc with
      | none =>
        rw [hcb] at this
        exact ⟨this.1, fun q hq => by
          rcases List.mem_cons.mp hq with rfl | hq'
          · exact hoe
          · exact this.2 q hq'⟩
      | some b =>
        rw [hcb] at this
        refine ⟨?_, ?_, this.2.2⟩
        · rcases this.1 with h | ⟨hm, hne⟩
          · exact Or.inl h
          · exact Or.inr ⟨List.mem_cons_of_mem o hm, hne⟩
        · intro q hq hqne
          rcases List.mem_cons.mp hq with rfl | hq'
          · exact absurd hoe hqne
          · exact this.2.1 q hq' hqne
    · rw [if_neg he]
      have hone : o.text ≠ [] := by
        intro h
        rw [h] at he
        simp [List.isEmpty] at he
      dsimp only
      by_cases hb : (match acc with
          | none => true
          | some b => fltF (optionScore b) (optionScore o)) = true
      · rw [if_pos hb]
        have := ih (some o)
        cases hcb : chooseBest rest (some o) with
        | none =>
          rw [hcb] at this
          cases this.1
        | some b =>
          rw [hcb] at this
          refine ⟨?_, ?_, ?_⟩
          · rcases this.1 with h | ⟨hm, hne⟩
            · cases h
              exact Or.inr ⟨List.mem_cons_self o rest, hone⟩
            · exact Or.inr ⟨List.mem_cons_of_mem o hm, hne⟩
          · intro q hq hqne
            rcases List.mem_cons.mp hq with rfl | hq'
            · exact this.2.2 q rfl
            · exact this.2.1 q hq' hqne
          · intro a ha
            subst ha
            dsimp only at hb
            have hao : (optionScore a).val < (optionScore o).val :=
              (fltF_iff_val (optionScore_den_pos a) (optionScore_den_pos o)).mp hb
            have hbo := this.2.2 o rfl
            intro hlt
            exact hbo (lt_trans hlt hao)
      · rw [if_neg hb]
        cases acc with
        | none => simp at hb
        | some a0 =>
          have hao : ¬ (optionScore a0).val < (optionScore o).val := by
            intro h
            exact hb (by
              simp only
              exact (fltF_iff_val (optionScore_den_pos a0)
                (optionScore_den_pos o)).mpr h)
          have := ih (some a0)
          cases hcb : chooseBest rest (some a0) with
          | none =>
            rw [hcb] at this
            cases this.1
          | some b =>
            rw [hcb] at this
            refine ⟨?_, ?_, this.2.2⟩
            · rcases this.1 with h | ⟨hm, hne⟩
              · exact Or.inl h
              · exact Or.inr ⟨List.mem_cons_of_mem o hm, hne⟩
            · intro q hq hqne
              rcases List.mem_cons.mp hq with rfl | hq'
              · have hba := this.2.2 a0 rfl
                intro hlt
                exact hao (lt_of_le_of_lt (not_lt.mp hba) hlt)
              · exact this.2.1 q hq' hqne

/-- C6: the best-scored heuristic candidate is used iff its score is
strictly above 70 (the best is a maximum of the candidate scores); and the
pre-cleanup title is an option of maximal `priority_weight * len(text)`
(weights 1.0, 0.9, 0.5 in binary64) among the non-empty options, the
empty string exactly when every option is empty. -/
theorem get_title_selection_spec :
    (∀ cands : List TCand, cands ≠ [] →
      ∃ best ∈ cands, (∀ c ∈ cands, c.score ≤ best.score) ∧
        pickHeuristic cands = (if 70 < best.score then best.text else [])) ∧
    (∀ (cands : List TCand) (og tt : Str),
      ((∀ o ∈ titleOptions (pickHeuristic cands) og tt, o.text = []) →
        titleChoice cands og tt = []) ∧
      ((∃ o ∈ titleOptions (pickHeuristic cands) og tt, o.text ≠ []) →
        ∃ o ∈ titleOptions (pickHeuristic cands) og tt, o.text ≠ [] ∧
          titleChoice cands og tt = o.text ∧
          ∀ o' ∈ titleOptions (pickHeuristic cands) og tt, o'.text ≠ [] →
            (optionScore o').val ≤ (optionScore o).val)) := by
  constructor
  · intro cands hne
    cases hs : sortTCandsDesc cands with
    | nil =>
      have hperm := sortTCandsDesc_perm cands
      rw [hs] at hperm
      exact absurd hperm.symm.eq_nil hne
    | cons best rest =>
      have hperm := sortTCandsDesc_perm cands
      rw [hs] at hperm
      have hsorted := sortTCandsDesc_sorted cands
      rw [hs, List.pairwise_cons] at hsorted
      refine ⟨best, hperm.mem_iff.mp (List.mem_cons_self best rest), ?_, ?_⟩
      · intro c hc
        rcases List.mem_cons.mp (hperm.mem_iff.mpr hc) with rfl | hc'
        · exact le_refl _
        · exact hsorted.1 c hc'
      · unfold pickHeuristic
        rw [hs]
  · intro cands og tt
    constructor
    · intro hall
      unfold titleChoice
      have := chooseBest_spec (titleOptions (pickHeuristic cands) og tt) none
      cases hcb : chooseBest (titleOptions (pickHeuristic cands) og tt) none with
      | none => rfl
      | some b =>
        rw [hcb] at this
        rcases this.1 with h | ⟨hm, hne⟩
        · cases h
        · exact absurd (hall b hm) hne
    · intro hex
      unfold titleChoice
      have := chooseBest_spec (titleOptions (pickHeuristic cands) og tt) none
      cases hcb : chooseBest (titleOptions (pickHeuristic cands) og tt) none with
      | none =>
        rw [hcb] at this
        rcases hex with ⟨o, ho, hone⟩
        exact absurd (this.2 o ho) hone
      | some b =>
        rw [hcb] at this
        rcases this.1 with h | ⟨hm, hne⟩
        · cases h
        · exact ⟨b, hm, hne, rfl, fun o' ho' hone =>
            not_lt.mp (this.2.1 o' ho' hone)⟩

/-- Witness for C6: a candidate scoring 85 beats the 70 threshold, and the
long heuristic text wins the weighted comparison over shorter `og` and
`<title>` texts. -/
theorem get_title_selection_spec_witness :
    (∃ best ∈ [({ score := 85, text := ("Real Article Headline").data } : TCand)],
      (∀ c ∈ [({ score := 85, text := ("Real Article Headline").data } : TCand)],
        c.score ≤ best.score) ∧
      pickHeuristic [({ score := 85, text := ("Real Article Headline").data } : TCand)] =
        (if 70 < best.score then best.text else [])) ∧
    titleChoice [({ score := 85, text := ("Real Article Headline").data } : TCand)]
        (("OG").data) (("Site").data) = ("Real Article Headline").data :=
  ⟨get_title_selection_spec.1
      [({ score := 85, text := ("Real Article Headline").data } : TCand)]
      (by decide),
    by decide⟩

/-! ## Sibling adoption of the top-node finder (C10):
`is_highlink_density` (lines 1748-1773), `get_siblings_score`
(lines 1696-1722) and `get_siblings_content` (lines 1660-1694).
Stopword counting is the external stopwords capability and is passed as a
function `swc`; a paragraph node carries the data the source reads from
the parser: its text and the texts of its `<a>` descendants. -/

/-- One whitespace-separated token run of Python `str.split()`. -/
def pySplitAux : Str → Str → List Str
  | [], acc => if acc.isEmpty then [] else [acc.reverse]
  | c :: t, acc =>
    if isSpaceChar c then
      if acc.isEmpty then pySplitAux t [] else acc.reverse :: pySplitAux t []
    else pySplitAux t (c :: acc)

/-- Python `text.split()`. -/
def pySplit (s : Str) : List Str := pySplitAux s []

/-- Python `word.isalnum()` (ASCII repertoire). -/
def pyIsAlnum (w : Str) : Bool := !w.isEmpty && w.all Char.isAlphanum

/-- `is_highlink_density(e)`: no links → `false`; no alphanumeric words →
`true`; otherwise `(link_word_count / word_count) * link_count >= 1.0`
in binary64. -/
def is_highlink_density (text : Str) (links : List Str) : Bool :=
  if links.isEmpty then false
  else
    let words := (pySplit text).filter pyIsAlnum
    if words.isEmpty then true
    else
      let link_text := links.foldl (fun a t => a ++ t) []
      let link_words := pySplit link_text
      let link_divisor := fdivNat link_words.length words.length
      let score := fmulNat links.length link_divisor
      !(fltNat score 1)

/-- A paragraph node: its text and the texts of its `<a>` descendants. -/
structure PNode where
  text : Str
  links : List Str

/-- A sibling of the top node: tag, own text, and its `<p>` descendants. -/
structure SibNode where
  tag : String
  text : Str
  paragraphs : List PNode

/-- The top node, as read by `get_siblings_score`: its `<p>` descendants. -/
structure TopNodeModel where
  paragraphs : List PNode

/-- `get_siblings_score(top_node)`: the default base 100000, replaced by
the average stopword count of the qualifying paragraphs (stopword count
above 2 and not link-dense) when there is at least one. -/
def get_siblings_score (swc : Str → Nat) (top : TopNodeModel) : F64 :=
  let stats := top.paragraphs.foldl
    (fun (acc : Nat × Nat) node =>
      if 2 < swc node.text ∧ is_highlink_density node.text node.links = false then
        (acc.1 + 1, acc.2 + swc node.text)
      else acc)
    (0, 0)
  if 0 < stats.1 then fdivNat stats.2 stats.1 else ⟨100000, 1⟩

/-- `get_siblings_content(current_sibling, baseline)`: a non-empty `<p>`
sibling is adopted directly; otherwise each inner paragraph with non-empty
text is adopted iff `baseline * 0.3 < stopword_count` (binary64 product)
and it is not link-dense.  The result lists the adopted texts. -/
def get_siblings_content (swc : Str → Nat) (baseline : F64)
    (sib : SibNode) : List Str :=
  if sib.tag = "p" ∧ 0 < sib.text.length then [sib.text]
  else
    sib.paragraphs.filterMap fun fp =>
      if 0 < fp.text.length then
        let paragraph_score := swc fp.text
        let score := fmul baseline lit03
        if fltNat score paragraph_score = true ∧
            is_highlink_density fp.text fp.links = false then
          some fp.text
        else none
      else none

theorem baseline_times_03_lt (k : Nat) :
    fltNat (fmul ⟨100000, 1⟩ lit03) k = true ↔ 30000 < k := by
  have hnum : (fmul ⟨100000, 1⟩ lit03).num =
      30000 * (fmul ⟨100000, 1⟩ lit03).den := by decide
  have hden : 0 < (fmul ⟨100000, 1⟩ lit03).den := by decide
  unfold fltNat
  rw [hnum, decide_eq_true_eq]
  exact Nat.mul_lt_mul_right hden

/-- C10: when no paragraph of the top node has stopword count above 2
without being link-dense, `get_siblings_score` returns the default base
100000; consequently, for a sibling that is not a non-empty `<p>`, an
inner paragraph is adopted by `get_siblings_content` only if its stopword
count exceeds `0.3 * 100000 = 30000`; a non-empty `<p>` sibling itself is
adopted unconditionally. -/
theorem siblings_baseline_spec :
    (∀ (swc : Str → Nat) (top : TopNodeModel),
      (∀ p ∈ top.paragraphs,
        ¬ (2 < swc p.text ∧ is_highlink_density p.text p.links = false)) →
      get_siblings_score swc top = ⟨100000, 1⟩) ∧
    (∀ (swc : Str → Nat) (sib : SibNode) (t : Str),
      ¬ (sib.tag = "p" ∧ 0 < sib.text.length) →
      t ∈ get_siblings_content swc ⟨100000, 1⟩ sib → 30000 < swc t) ∧
    (∀ (swc : Str → Nat) (sib : SibNode),
      sib.tag = "p" → 0 < sib.text.length →
      get_siblings_content swc ⟨100000, 1⟩ sib = [sib.text]) := by
  refine ⟨?_, ?_, ?_⟩
  · intro swc top hno
    unfold get_siblings_score
    have hfold : top.paragraphs.foldl
        (fun (acc : Nat × Nat) node =>
          if 2 < swc node.text ∧ is_highlink_density node.text node.links = false then
            (acc.1 + 1, acc.2 + swc node.text)
          else acc)
        (0, 0) = (0, 0) := by
      have : ∀ (l : List PNode), (∀ p ∈ l,
          ¬ (2 < swc p.text ∧ is_highlink_density p.text p.links = false)) →
          ∀ acc : Nat × Nat, l.foldl
            (fun (acc : Nat × Nat) node =>
              if 2 < swc node.text ∧
                  is_highlink_density node.text node.links = false then
                (acc.1 + 1, acc.2 + swc node.text)
              else acc) acc = acc := by
        intro l
        induction l with
        | nil => intro _ acc; rfl
        | cons p ps ih =>
          intro h acc
          rw [List.foldl_cons, if_neg (h p (List.mem_cons_self p ps))]
          exact ih (fun q hq => h q (List.mem_cons_of_mem p hq)) acc
      exact this top.paragraphs hno (0, 0)
    rw [hfold]
    rfl
  · intro swc sib t hnot hmem
    unfold get_siblings_content at hmem
    rw [if_neg hnot] at hmem
    rw [List.mem_filterMap] at hmem
    obtain ⟨fp, _, heq⟩ := hmem
    by_cases hlen : 0 < fp.text.length
    · rw [if_pos hlen] at heq
      dsimp only at heq
      by_cases hcond : fltNat (fmul ⟨100000, 1⟩ lit03) (swc fp.text) = true ∧
          is_highlink_density fp.text fp.links = false
      · rw [if_pos hcond] at heq
        obtain rfl : fp.text = t := Option.some.inj heq
        exact (baseline_times_03_lt (swc fp.text)).mp hcond.1
      · rw [if_neg hcond] at heq
        cases heq
    · rw [if_neg hlen] at heq
      cases heq
  · intro swc sib htag hlen
    unfold get_siblings_content
    rw [if_pos ⟨htag, hlen⟩]

/-- The witness top node: one paragraph with too few stopwords. -/
def wTop : TopNodeModel := { paragraphs := [{ text := ("abc").data, links := [] }] }

/-- The witness sibling: a `<div>` with one short inner paragraph. -/
def wSib : SibNode :=
  { tag := "div", text := ("x").data,
    paragraphs := [{ text := ("short para").data, links := [] }] }

/-- Witness for C10: with every stopword count 1, the baseline is the
default 100000 and the non-`<p>` sibling contributes nothing (its inner
paragraph has stopword count 1, far below 30000). -/
theorem siblings_baseline_spec_witness :
    get_siblings_score (fun _ => 1) wTop = ⟨100000, 1⟩ ∧
    get_siblings_content (fun _ => 1) ⟨100000, 1⟩ wSib = [] :=
  ⟨siblings_baseline_spec.1 (fun _ => 1) wTop (by decide), by decide⟩

end Newspaper
